import Mathlib

/-!
# GameLibTools — cache/synchronization engine: shallow embedding

This file embeds the data model and the operations of the repository's
cache/synchronization engine (`gamelibtools/datatable.py`,
`gamelibtools/dataset.py`) in Lean 4 and proves/refutes the specified
properties of `DataTable` (upsert, remove, load) and `DataSet`
(sync, chunked import, reference resolution).

Modelling conventions:
* Python's dynamically-typed values are the inductive `Val`
  (`None`, `int`, `str`, `bool`, `list`, `dict`).  Floats never occur in
  the properties under study; numeric CSV fields are modelled as `vint`.
* A Python `dict` used as a data row is an insertion-ordered association
  list (`Row`), exactly like CPython dicts; `aset`/`dset` mirror
  `d[k] = v` (update in place if the key exists, else append).
* A raised exception is `Except.error`; Python `try/except` blocks are the
  corresponding `match`.  An operation that raises after partially
  mutating `self` is modelled as returning the error (the callers under
  study either crash or stop at that point, so the lost partial mutation
  is unobservable in the claims).
* The remote IGDB service (an external collaborator, spec §1) is a list of
  rows in the server's sort order; `count`/`fetch` evaluate the query
  filters server-side on integer timestamps, page with `offset`/`limit`.
-/

/-- Python runtime errors that the modelled code can raise.  `external`
marks a call into an external library (json codec, float parsing, list
ordering) whose outcome no claim depends on. -/
inductive PyErr where
  | typeError
  | valueError
  | keyError
  | indexError
  | hang
  | external (what : String)
deriving DecidableEq

/-- Python values: `None`, `int`, `str`, `bool`, `list`, `dict`.
Dict values appear because `DataTable.remove_row` can assign a whole row
to `self.lastupdate` (see `removeRow`). -/
inductive Val where
  | vnone
  | vint (n : Int)
  | vstr (s : String)
  | vbool (b : Bool)
  | vlist (xs : List Val)
  | vdict (fs : List (String × Val))

open Val

mutual

/-- Decidable equality on `Val` (hand-written: the deriving handler does
not support nested inductives). -/
def valDecEq : (a b : Val) → Decidable (a = b)
  | vnone, vnone => .isTrue rfl
  | vnone, vint _ => .isFalse (fun h => Val.noConfusion h)
  | vnone, vstr _ => .isFalse (fun h => Val.noConfusion h)
  | vnone, vbool _ => .isFalse (fun h => Val.noConfusion h)
  | vnone, vlist _ => .isFalse (fun h => Val.noConfusion h)
  | vnone, vdict _ => .isFalse (fun h => Val.noConfusion h)
  | vint _, vnone => .isFalse (fun h => Val.noConfusion h)
  | vint a, vint b =>
    if h : a = b then .isTrue (by rw [h]) else .isFalse (fun hh => h (Val.vint.inj hh))
  | vint _, vstr _ => .isFalse (fun h => Val.noConfusion h)
  | vint _, vbool _ => .isFalse (fun h => Val.noConfusion h)
  | vint _, vlist _ => .isFalse (fun h => Val.noConfusion h)
  | vint _, vdict _ => .isFalse (fun h => Val.noConfusion h)
  | vstr _, vnone => .isFalse (fun h => Val.noConfusion h)
  | vstr _, vint _ => .isFalse (fun h => Val.noConfusion h)
  | vstr a, vstr b =>
    if h : a = b then .isTrue (by rw [h]) else .isFalse (fun hh => h (Val.vstr.inj hh))
  | vstr _, vbool _ => .isFalse (fun h => Val.noConfusion h)
  | vstr _, vlist _ => .isFalse (fun h => Val.noConfusion h)
  | vstr _, vdict _ => .isFalse (fun h => Val.noConfusion h)
  | vbool _, vnone => .isFalse (fun h => Val.noConfusion h)
  | vbool _, vint _ => .isFalse (fun h => Val.noConfusion h)
  | vbool _, vstr _ => .isFalse (fun h => Val.noConfusion h)
  | vbool a, vbool b =>
    if h : a = b then .isTrue (by rw [h]) else .isFalse (fun hh => h (Val.vbool.inj hh))
  | vbool _, vlist _ => .isFalse (fun h => Val.noConfusion h)
  | vbool _, vdict _ => .isFalse (fun h => Val.noConfusion h)
  | vlist _, vnone => .isFalse (fun h => Val.noConfusion h)
  | vlist _, vint _ => .isFalse (fun h => Val.noConfusion h)
  | vlist _, vstr _ => .isFalse (fun h => Val.noConfusion h)
  | vlist _, vbool _ => .isFalse (fun h => Val.noConfusion h)
  | vlist xs, vlist ys =>
    match valDecEqL xs ys with
    | .isTrue h => .isTrue (by rw [h])
    | .isFalse h => .isFalse (fun hh => h (Val.vlist.inj hh))
  | vlist _, vdict _ => .isFalse (fun h => Val.noConfusion h)
  | vdict _, vnone => .isFalse (fun h => Val.noConfusion h)
  | vdict _, vint _ => .isFalse (fun h => Val.noConfusion h)
  | vdict _, vstr _ => .isFalse (fun h => Val.noConfusion h)
  | vdict _, vbool _ => .isFalse (fun h => Val.noConfusion h)
  | vdict _, vlist _ => .isFalse (fun h => Val.noConfusion h)
  | vdict fs, vdict gs =>
    match valDecEqD fs gs with
    | .isTrue h => .isTrue (by rw [h])
    | .isFalse h => .isFalse (fun hh => h (Val.vdict.inj hh))

/-- Decidable equality on lists of `Val`. -/
def valDecEqL : (xs ys : List Val) → Decidable (xs = ys)
  | [], [] => .isTrue rfl
  | [], _ :: _ => .isFalse (fun h => List.noConfusion h)
  | _ :: _, [] => .isFalse (fun h => List.noConfusion h)
  | x :: xs, y :: ys =>
    match valDecEq x y with
    | .isFalse h => .isFalse (fun hh => h (by injection hh))
    | .isTrue h1 =>
      match valDecEqL xs ys with
      | .isTrue h2 => .isTrue (by rw [h1, h2])
      | .isFalse h2 => .isFalse (fun hh => h2 (by injection hh))

/-- Decidable equality on string-keyed `Val` association lists. -/
def valDecEqD : (fs gs : List (String × Val)) → Decidable (fs = gs)
  | [], [] => .isTrue rfl
  | [], _ :: _ => .isFalse (fun h => List.noConfusion h)
  | _ :: _, [] => .isFalse (fun h => List.noConfusion h)
  | (k, v) :: fs, (l, w) :: gs =>
    if hk : k = l then
      match valDecEq v w with
      | .isFalse h => .isFalse (fun hh => h (by injection hh with h1 h2; rw [Prod.mk.injEq] at h1; exact h1.2))
      | .isTrue hv =>
        match valDecEqD fs gs with
        | .isTrue ht => .isTrue (by rw [hk, hv, ht])
        | .isFalse ht => .isFalse (fun hh => ht (by injection hh))
    else .isFalse (fun hh => hk (by injection hh with h1 h2; rw [Prod.mk.injEq] at h1; exact h1.1))

end

instance : DecidableEq Val := valDecEq

/-- A data row: a Python dict from column name to value, in insertion order. -/
abbrev Row := List (String × Val)

/-- Python dict lookup `d[k]` in an insertion-ordered dict (first matching key). -/
def dget {α β : Type} [DecidableEq α] (m : List (α × β)) (k : α) : Option β :=
  match m with
  | [] => none
  | (k', v) :: rest => if k' = k then some v else dget rest k

/-- Python dict assignment `d[k] = v`: replace the value of an existing key in place, else append. -/
def dset {α β : Type} [DecidableEq α] (m : List (α × β)) (k : α) (v : β) : List (α × β) :=
  match m with
  | [] => [(k, v)]
  | (k', v') :: rest => if k' = k then (k, v) :: rest else (k', v') :: dset rest k v

/-- Python `d.pop(k)`: drop the entry with the given key (keys are unique in a dict). -/
def dpop {α β : Type} [DecidableEq α] (m : List (α × β)) (k : α) : List (α × β) :=
  match m with
  | [] => []
  | (k', v') :: rest => if k' = k then rest else (k', v') :: dpop rest k

/-- Row-level `row[name]` lookup. -/
def alookup (r : Row) (k : String) : Option Val := dget r k

/-- Row-level `row[name] = v`. -/
def aset (r : Row) (k : String) (v : Val) : Row := dset r k v

/-- Python truthiness (`if vx:`). -/
def pyTruthy : Val → Bool
  | vnone => false
  | vint n => n ≠ 0
  | vstr s => s ≠ ""
  | vbool b => b
  | vlist xs => xs ≠ []
  | vdict fs => fs ≠ []

/-- Python `a > b`.  Defined on numbers (bools are ints) and on string
pairs; mixed/unordered types raise `TypeError` as in Python 3.  The
element-wise ordering of two lists is external behaviour no claim uses. -/
def pyGt : Val → Val → Except PyErr Bool
  | vint a, vint b => .ok (decide (b < a))
  | vint a, vbool b => .ok (decide ((if b then (1 : Int) else 0) < a))
  | vbool a, vint b => .ok (decide (b < (if a then (1 : Int) else 0)))
  | vbool a, vbool b => .ok (decide (b < a))
  | vstr a, vstr b => .ok (decide (b < a))
  | vlist _, vlist _ => .error (.external "list ordering")
  | _, _ => .error .typeError

/-- Python `int(s)` string parsing: optional sign followed by decimal
digits (implemented directly so it evaluates by kernel reduction). -/
def pyStrToInt (s : String) : Option Int :=
  let cs := s.data
  let sgn : Int := match cs with
    | '-' :: _ => -1
    | _ => 1
  let ds : List Char := match cs with
    | '-' :: rest => rest
    | '+' :: rest => rest
    | _ => cs
  if ds ≠ [] && ds.all (fun c => 48 ≤ c.toNat && c.toNat ≤ 57) then
    some (sgn * ((ds.foldl (fun n c => n * 10 + (c.toNat - 48)) 0 : Nat) : Int))
  else none

/-- Python `int(x)`: ints pass through, bools are 0/1, strings are parsed
in base 10 (`ValueError` otherwise); `None`/lists/dicts raise `TypeError`. -/
def pyInt : Val → Except PyErr Int
  | vint n => .ok n
  | vbool b => .ok (if b then 1 else 0)
  | vstr s =>
    match pyStrToInt s with
    | some n => .ok n
    | none => .error .valueError
  | _ => .error .typeError

/-- Python `len(x)` for sized values. -/
def pyLen : Val → Except PyErr Int
  | vstr s => .ok s.length
  | vlist xs => .ok xs.length
  | vdict fs => .ok fs.length
  | _ => .error .typeError

/-- The stdlib JSON decoder `json.loads` (external collaborator): used only for
columns of type `list`/`dict`/`img`, which no claim under study exercises;
modelled as an external call. -/
def jsonLoads (_ : Val) : Except PyErr Val := .error (.external "json.loads")

/-- Python `float(x)` (only reached for columns of type `float`, which no
claim exercises); numbers pass through, strings go to the external parser. -/
def pyFloat : Val → Except PyErr Val
  | vint n => .ok (vint n)
  | vbool b => .ok (vint (if b then 1 else 0))
  | vstr _ => .error (.external "float")
  | _ => .error .typeError

/-- The stdlib call `datetime.fromtimestamp(n).strftime('%Y-%m-%d')` (external):
an injective placeholder rendering; no claim depends on the text. -/
def fmtDate (n : Int) : String := "date:" ++ toString n

/-- The stdlib call `datetime.fromtimestamp(n).strftime('%Y-%m-%d %H:%M:%S')`
(external): an injective placeholder rendering. -/
def fmtDateTime (n : Int) : String := "datetime:" ++ toString n

/-- Python `s.replace("_", " ").capitalize()` — first character upper-cased, the
rest lower-cased, underscores replaced by spaces. -/
def pyCapSpace (s : String) : String :=
  let t := (s.replace "_" " ")
  match t.data with
  | [] => ""
  | c :: rest => String.mk (c.toUpper :: rest.map Char.toLower)

/-- A column schema entry that is a Python dict
(`{'name': .., 'type': .., 'field': .., 'calc': .., 'ref': .., 'param': ..,
'prop': .., 'proc': .., 'title': ..}`).  An `Option` field is `none` when
the key is absent from the dict.  The file-naming keys for image columns
(`download`, `fileprefix`, `filetoken`) are consumed only by the external
image downloader (out of modelled scope, spec §1) and are not represented. -/
structure ColSpec where
  name : String
  title : Option String := none
  ctype : Option String := none   -- the 'type' key
  field : Option String := none
  ccalc : Option String := none   -- the 'calc' key
  ref : Option String := none
  param : Option String := none
  prop : Option String := none
  proc : Option String := none
deriving DecidableEq

/-- A schema column: either a bare string or a dict (`ColSpec`). -/
inductive Col where
  | cstr (s : String)
  | cdict (c : ColSpec)
deriving DecidableEq

/-- In-memory state of `DataTable` (datatable.py).  `index` is the Python
dict `id → position`; `lastupdate` is the watermark (normally an int, but
`remove_row` can assign a row to it — hence `Val`). -/
structure DataTable where
  tablekey : String
  name : String
  filepath : String
  backend : String
  schema : List Col
  sortcol : String
  tscol : String
  data : List Row
  index : List (Val × Nat)
  lastupdate : Val
  missingcols : List Col
  issaved : Bool
  syncable : Bool
deriving DecidableEq

instance {ε α : Type} [DecidableEq ε] [DecidableEq α] : DecidableEq (Except ε α) := fun a b =>
  match a, b with
  | .ok x, .ok y =>
    if h : x = y then .isTrue (by rw [h]) else .isFalse (fun hh => h (by injection hh))
  | .error x, .error y =>
    if h : x = y then .isTrue (by rw [h]) else .isFalse (fun hh => h (by injection hh))
  | .ok _, .error _ => .isFalse (fun h => Except.noConfusion h)
  | .error _, .ok _ => .isFalse (fun h => Except.noConfusion h)

/-- The constructor `DataTable.__init__`: fresh table with the constructor's defaults. -/
def dtInit (vkey vname fpath url : String) (schema : List Col)
    (srtc : String := "id") (tsc : String := "updated_at") : DataTable :=
  { tablekey := vkey, name := vname, filepath := fpath, backend := url
    schema := schema, sortcol := srtc, tscol := tsc
    data := [], index := [], lastupdate := vint 0
    missingcols := [], issaved := false, syncable := true }

/-- Source `DataTable.in_index`: `rid in self.index and self.index[rid] < len(self.data)`. -/
def DataTable.inIndex (t : DataTable) (rid : Val) : Bool :=
  match dget t.index rid with
  | some i => decide (i < t.data.length)
  | none => false

/-- The two mutation branches of `DataTable.add_row`: overwrite the row at
the indexed position, or append and index at the new position. -/
def upsertData (t : DataTable) (v : Val) (vrow : Row) : DataTable :=
  if t.inIndex v then
    match dget t.index v with
    | some i => { t with data := t.data.set i vrow }
    | none => t
  else
    { t with data := t.data ++ [vrow], index := dset t.index v t.data.length }

/-- The tail of `DataTable.add_row`: `if self.syncable and self.tscol in
vrow and vrow[self.tscol] > self.lastupdate: self.lastupdate =
vrow[self.tscol]`, then `self.issaved = False`. -/
def addRowTs (t1 : DataTable) (vrow : Row) : Except PyErr DataTable :=
  if t1.syncable then
    match alookup vrow t1.tscol with
    | some ts =>
      match pyGt ts t1.lastupdate with
      | .error e => .error e
      | .ok b =>
        .ok { t1 with lastupdate := if b then ts else t1.lastupdate, issaved := false }
    | none => .ok { t1 with issaved := false }
  else .ok { t1 with issaved := false }

/-- Source `DataTable.add_row`: upsert keyed on `row['id']` (rows without an `id`
are dropped with no effect), then the watermark/dirty-flag update
(`addRowTs`). -/
def addRow (t : DataTable) (vrow : Row) : Except PyErr DataTable :=
  match alookup vrow "id" with
  | none => .ok t
  | some v => addRowTs (upsertData t v vrow) vrow

/-- The key function `lambda obj: obj[self.tscol]` used by `remove_row`'s
`max(...)` call (`KeyError` when the column is absent). -/
def pyKeyTs (tscol : String) (r : Row) : Except PyErr Val :=
  match alookup r tscol with
  | some v => .ok v
  | none => .error .keyError

/-- The scan of Python's `max(iterable, key=f)`: keeps the first maximal
element, comparing keys with `>`. -/
def pyMaxGo (tscol : String) : Row → List Row → Except PyErr Row
  | best, [] => .ok best
  | best, x :: xs =>
    match pyKeyTs tscol x with
    | .error e => .error e
    | .ok kx =>
      match pyKeyTs tscol best with
      | .error e => .error e
      | .ok kb =>
        match pyGt kx kb with
        | .error e => .error e
        | .ok b => pyMaxGo tscol (if b then x else best) xs

/-- Python `max(self.data, key=lambda obj: obj[self.tscol])`: raises
`ValueError` on an empty sequence, else returns the (first) maximal ROW —
not its timestamp. -/
def pyMax (l : List Row) (tscol : String) : Except PyErr Row :=
  match l with
  | [] => .error .valueError
  | x :: xs => pyMaxGo tscol x xs

/-- Source `DataTable.remove_row`: pop the row at the indexed position, pop the
index key; when the removed row's timestamp equals the watermark,
`self.lastupdate = max(self.data, key=lambda obj: obj[self.tscol])` —
which assigns the maximal ROW itself (a dict) to the watermark. -/
def removeRow (t : DataTable) (rid : Val) : Except PyErr DataTable :=
  if t.inIndex rid then
    match dget t.index rid with
    | none => .ok t
    | some i =>
      match t.data[i]? with
      | none => .ok t
      | some row =>
        let data' := t.data.eraseIdx i
        let index' := dpop t.index rid
        if t.syncable then
          match alookup row t.tscol with
          | some ts =>
            if ts = t.lastupdate then
              match pyMax data' t.tscol with
              | .error e => .error e
              | .ok mrow =>
                .ok { t with data := data', index := index',
                             lastupdate := vdict mrow, issaved := false }
            else .ok { t with data := data', index := index', issaved := false }
          | none => .ok { t with data := data', index := index', issaved := false }
        else .ok { t with data := data', index := index', issaved := false }
  else .ok t

/-- Source `DataTable.get_row`: through the index when it is non-empty (stale
positions raise `IndexError`), else a linear scan comparing `item["id"]`
(`KeyError` on a row without an id). -/
def getRowScan : List Row → Val → Except PyErr (Option Row)
  | [], _ => .ok none
  | r :: rs, rid =>
    match alookup r "id" with
    | none => .error .keyError
    | some v => if v = rid then .ok (some r) else getRowScan rs rid

/-- Source `DataTable.get_row`. -/
def getRow (t : DataTable) (rid : Val) : Except PyErr (Option Row) :=
  if t.index ≠ [] then
    match dget t.index rid with
    | some i =>
      match t.data[i]? with
      | some r => .ok (some r)
      | none => .error .indexError
    | none => .ok none
  else getRowScan t.data rid

/-- Source `DataTable.count`. -/
def DataTable.count (t : DataTable) : Nat := t.data.length

/-- Header name of a schema column: `col['title'] if 'title' in col else
col['name']` for dicts, the string itself otherwise (`DataTable.load`). -/
def colHeaderName : Col → String
  | .cstr s => s
  | .cdict c => c.title.getD c.name

/-- The header-validation loop of `DataTable.load`: every schema column
whose header name does not occur in the header record is recorded as
missing.  The load is NOT aborted on a mismatch. -/
def headerMissing (schema : List Col) (hdr : List Val) : List Col :=
  schema.filter (fun col => decide (vstr (colHeaderName col) ∉ hdr))

/-- The `_parse_fields` column name: the string itself, or the dict's `name`. -/
def colParseName : Col → String
  | .cstr s => s
  | .cdict c => c.name

/-- The `_parse_fields` column type: `'int' if name == 'id' else 'str'` for a
bare string, the dict's `type` (default `'str'`) otherwise. -/
def colParseType : Col → String
  | .cstr s => if s = "id" then "int" else "str"
  | .cdict c => c.ctype.getD "str"

/-- The per-type load coercion of `_parse_fields` (an empty CSV field
parses to `None`; `list`/`dict`/`img` go through the JSON decoder;
`int`/`count` through `int(..)`; `bool` through `int(..) != 0`). -/
def parseField (dtyp : String) (v : Val) : Except PyErr Val :=
  if dtyp = "list" ∨ dtyp = "dict" ∨ dtyp = "img" then
    if v ≠ vstr "" then jsonLoads v else .ok vnone
  else if dtyp = "int" ∨ dtyp = "count" then
    if v ≠ vstr "" then (pyInt v).map vint else .ok vnone
  else if dtyp = "float" then
    if v ≠ vstr "" then pyFloat v else .ok vnone
  else if dtyp = "bool" then
    if v ≠ vstr "" then (pyInt v).map (fun n => vbool (decide (n ≠ 0))) else .ok vnone
  else .ok v

/-- The loop of `DataTable._parse_fields`: walk the schema, skipping
missing columns without consuming a source field, stopping (`break`) when
the source record is exhausted; a failed coercion raises. -/
def parseFieldsGo (missing : List Col) (src : List Val) :
    List Col → Nat → Row → Except PyErr Row
  | [], _, ret => .ok ret
  | c :: cs, ind, ret =>
    if h : ind < src.length then
      if c ∈ missing then parseFieldsGo missing src cs ind ret
      else
        match parseField (colParseType c) (src.get ⟨ind, h⟩) with
        | .error e => .error e
        | .ok w => parseFieldsGo missing src cs (ind + 1) (aset ret (colParseName c) w)
    else .ok ret

/-- Source `DataTable._parse_fields`. -/
def parseFields (schema missing : List Col) (src : List Val) : Except PyErr Row :=
  parseFieldsGo missing src schema 0 []

/-- The reset performed at the top of `DataTable.load` (`lastupdate`,
`index`, `missingcols`) combined with the header-validation pass.
`self.data` is NOT reset. -/
def postHeader (t : DataTable) (hdr : List Val) : DataTable :=
  { t with lastupdate := vint 0, index := [],
           missingcols := headerMissing t.schema hdr }

/-- One data record of `DataTable.load`'s row loop: parse, then
`add_row`; `none` signals the exception that stops the loop. -/
def loadStep (t : DataTable) (src : List Val) : Option DataTable :=
  match parseFields t.schema t.missingcols src with
  | .error _ => none
  | .ok y =>
    match addRow t y with
    | .error _ => none
    | .ok t' => some t'

/-- The `try: for row in reader: ...` loop of `DataTable.load`: the first
exception is caught and logged and the loop stops, keeping the rows
already added. -/
def loadRowsGo : DataTable → List (List Val) → DataTable
  | t, [] => t
  | t, src :: rest =>
    match loadStep t src with
    | none => t
    | some t' => loadRowsGo t' rest

/-- Source `DataTable.load`, on the CSV records of the file (header first):
reset watermark/index/missingcols, validate the header, parse and add the
data rows until the first failure, and set `issaved = True` regardless. -/
def loadTable (t : DataTable) (recs : List (List Val)) : DataTable :=
  match recs with
  | [] => { t with lastupdate := vint 0, index := [], missingcols := [], issaved := true }
  | hdr :: rows => { loadRowsGo (postHeader t hdr) rows with issaved := true }

/-- The step `loadStep` chained over a record list with no failure allowed
(used to phrase "all of these records parse and add cleanly"). -/
def stepsAll : DataTable → List (List Val) → Option DataTable
  | t, [] => some t
  | t, src :: rest =>
    match loadStep t src with
    | none => none
    | some t' => stepsAll t' rest

/-- Source `DataTable.get_full_schema`: bare strings become `{'name': c}` dicts;
for a syncable table with a timestamp column not already present as a bare
string column, `{'name': tscol}` is appended. -/
def getFullSchemaGo (tscol : String) : List Col → (List ColSpec × Bool)
  | [] => ([], false)
  | c :: cs =>
    let (cols, tsinc) := getFullSchemaGo tscol cs
    let spec := match c with
      | .cstr s => { name := s : ColSpec }
      | .cdict d => d
    (spec :: cols, tsinc || (c = .cstr tscol))

/-- Source `DataTable.get_full_schema`. -/
def getFullSchema (t : DataTable) : List ColSpec :=
  let (cols, tsinc) := getFullSchemaGo t.tscol t.schema
  if t.syncable && t.tscol ≠ "" && !tsinc then cols ++ [{ name := t.tscol }]
  else cols

/-- Source `DataTable.get_autorefs`: the dict columns whose `ref` is the table itself. -/
def getAutorefs (t : DataTable) : List Col :=
  t.schema.filter (fun c =>
    match c with
    | .cdict d => d.ref = some t.tablekey
    | .cstr _ => false)

/-- The property selector passed to `resolve_ref` / `_fetch_ref`
(`str | list | None` in the source). -/
inductive PropSel where
  | pnone
  | pstr (s : String)
  | plist (ks : List String)
deriving DecidableEq

/-- A reference-resolution callback: `self.resolve_ref(vx, cx['ref'], prop)`
as seen from `_proc_row`.  `DataSet.resolve_ref` closes over the whole
dataset; the claims under study instantiate it on schemas without
reference columns, so it stays a parameter. -/
abbrev RefResolver := Val → String → String → Except PyErr Val

/-- An image-resolution callback: `self._resolve_img(vx, fpref, ftoken,
download)`; image downloading is an external collaborator (spec §1). -/
abbrev ImgResolver := Val → ColSpec → Row → Except PyErr Val

/-- The `try:` body of one column of `DataSet._proc_row`.
`.ok none` is the `continue` for a source key that is absent (and the
column not computed); `.error` is an exception, which `_proc_row` catches
and logs, skipping only this column. -/
def colStep (rr : RefResolver) (ri : ImgResolver) (srcrow : Row) (tkey : String)
    (cx : ColSpec) : Except PyErr (Option Val) :=
  let iscalc : Bool := match cx.ccalc with
    | some s => decide (s ≠ "")
    | none => false
  let srckey := cx.field.getD cx.name
  if (alookup srcrow srckey).isNone && !iscalc then .ok none
  else
    let vx0 : Val := if iscalc then vnone else (alookup srcrow srckey).getD vnone
    if cx.ctype = some "date" ∨ cx.ctype = some "datetime" then
      match pyGt vx0 (vint 0) with
      | .error e => .error e
      | .ok b =>
        if b then
          let n : Int := match vx0 with
            | vint n => n
            | vbool _ => 1
            | _ => 0
          .ok (some (vstr (if cx.ctype = some "date" then fmtDate n else fmtDateTime n)))
        else .ok (some vnone)
    else if cx.ctype = some "count" then
      if iscalc && (cx.ccalc.bind (alookup srcrow)).isSome then
        match (cx.ccalc.bind (alookup srcrow)) with
        | some cv => (pyLen cv).map (fun n => some (vint n))
        | none => .ok (some vnone)
      else
        match vx0 with
        | vlist xs => .ok (some (vint xs.length))
        | _ => .ok (some vnone)
    else if cx.ref.isSome ∧ cx.ref ≠ some tkey then
      if pyTruthy vx0 then
        let isimg := cx.ctype = some "img"
        let prop := cx.param.getD (cx.prop.getD (if isimg then "url" else "name"))
        match rr vx0 (cx.ref.getD "") prop with
        | .error e => .error e
        | .ok vr =>
          if isimg then (ri vr cx srcrow).map some
          else .ok (some vr)
      else .ok (some vnone)
    else if cx.proc.isSome then
      match cx.prop with
      | none => .error .keyError   -- cx['prop'] raises when the key is absent
      | some p =>
        match vx0 with
        | vstr s => .ok (some (if p ≠ "" then vstr (pyCapSpace s) else vstr s))
        | _ => .ok (some vx0)
    else .ok (some vx0)

/-- Source `DataSet._proc_row` (with `dstrow=None`, the import/sync path): every
column is processed inside its own `try/except`; a failing column is
logged and skipped, the rest of the row is still built and returned.
The function itself never raises. -/
def procRow (rr : RefResolver) (ri : ImgResolver) (srcrow : Row)
    (schema : List ColSpec) (tkey : String) : Row :=
  schema.foldl
    (fun ret cx =>
      match colStep rr ri srcrow tkey cx with
      | .ok (some vx) => aset ret cx.name vx
      | .ok none => ret
      | .error _ => ret)
    []

/-- The remote IGDB table (external collaborator, spec §6): its rows in
the server's sort order.  `count`/`fetch` evaluate filters server-side. -/
structure Igdb where
  rows : List Row

/-- Remote `igdbapi.count(endpoint, filter)`. -/
def igdbCount (g : Igdb) (p : Row → Bool) : Nat := (g.rows.filter p).length

/-- Remote `igdbapi.req(endpoint, 'fields ..; offset N; limit 500; sort ..; filter;')`:
one page of at most 500 matching rows. -/
def igdbPage (g : Igdb) (p : Row → Bool) (offset : Nat) : List Row :=
  ((g.rows.filter p).drop offset).take 500

/-- Server-side evaluation of `where tscol > w` on integer timestamps. -/
def serverGtTs (tscol : String) (w : Val) (r : Row) : Bool :=
  match alookup r tscol, w with
  | some (vint a), vint b => decide (b < a)
  | _, _ => false

/-- Exception-propagating fold (the plain `for x in resp:` body). -/
def foldE (step : DataTable → Row → Except PyErr DataTable) :
    DataTable → List Row → Except PyErr DataTable
  | t, [] => .ok t
  | t, r :: rs =>
    match step t r with
    | .error e => .error e
    | .ok t' => foldE step t' rs

/-- The `while count < total:` loop of `DataSet._fetch_table`; it has no
empty-page break, so a page that comes back empty loops forever (`hang`
when the fuel runs out models that divergence). -/
def fetchTableGo (step : DataTable → Row → Except PyErr DataTable)
    (g : Igdb) (p : Row → Bool) (total : Nat) :
    Nat → Nat → DataTable → Except PyErr DataTable
  | 0, _, _ => .error .hang
  | fuel + 1, count, t =>
    if total ≤ count then .ok t
    else
      let resp := igdbPage g p count
      match foldE step t resp with
      | .error e => .error e
      | .ok t' => fetchTableGo step g p total fuel (count + resp.length) t'

/-- Source `DataSet._fetch_table` (progress logging dropped). -/
def fetchTable (step : DataTable → Row → Except PyErr DataTable)
    (g : Igdb) (p : Row → Bool) (total : Nat) (t : DataTable) :
    Except PyErr DataTable :=
  fetchTableGo step g p total (total + 1) 0 t

/-- Source `DataSet.sync_table`: count the remote rows with
`tscol > dt.lastupdate`; when zero, done; else page through exactly those
rows, passing each through the row processor and `add_row`.  The row
processor `_proc_row(row, None, lschema, key)` is abstracted as
`fproc : Row → Row` (cf. `procRow`). -/
def syncTable (g : Igdb) (t : DataTable) (fproc : Row → Row) :
    Except PyErr DataTable :=
  let p := serverGtTs t.tscol t.lastupdate
  let total := igdbCount g p
  if total = 0 then .ok t
  else fetchTable (fun tb r => addRow tb (fproc r)) g p total t

/-- The list-selector loop of the property extraction in
`DataSet._fetch_ref` (`ret[key] = src[key]`, `KeyError` when absent). -/
def extractPropGo (src : Row) (acc : Row) : List String → Except PyErr Row
  | [] => .ok acc
  | k :: rest =>
    match alookup src k with
    | none => .error .keyError
    | some v => extractPropGo src (aset acc k v) rest

/-- The sub-map / scalar property extraction at the end of
`DataSet._fetch_ref`: a list selector builds `{key: src[key]}`; a
non-empty string selector reads `src[prop]` when present, else the whole
row; `None` or an empty string yields the whole row. -/
def extractProp (src : Row) : PropSel → Except PyErr Val
  | .plist ks => (extractPropGo src [] ks).map vdict
  | .pstr p =>
    if p ≠ "" then
      match alookup src p with
      | some v => .ok v
      | none => .ok (vdict src)
    else .ok (vdict src)
  | .pnone => .ok (vdict src)

/-- The remote request `fields ..; limit 500; where id = idx;` issued by
`DataSet._fetch_ref` on an index miss. -/
def refQuery (g : Igdb) (idx : Val) : List Row :=
  (g.rows.filter (fun r => decide (alookup r "id" = some idx))).take 500

/-- Source `DataSet._fetch_ref`: when the id is not in the target table's index,
fetch the single remote row (`where id = idx; limit 500`), process it
through the target's own schema, `add_row` it (lazy materialisation), and
extract the requested property; when the id is an index hit, read the row
locally with no remote fetch.  The returned `Nat` counts the remote
`req` calls. -/
def fetchRef (rr : RefResolver) (ri : ImgResolver) (g : Igdb) (t : DataTable)
    (idx : Val) (prop : PropSel) : Except PyErr (DataTable × Option Val × Nat) :=
  if !t.inIndex idx then
    match refQuery g idx with
    | [] => .ok (t, none, 1)   -- warning logged, resolution yields None
    | x :: _ =>
      let src := procRow rr ri x (getFullSchema t) t.tablekey
      match addRow t src with
      | .error e => .error e
      | .ok t' =>
        match extractProp src prop with
        | .error e => .error e
        | .ok v => .ok (t', some v, 1)
  else
    match getRow t idx with
    | .error e => .error e
    | .ok none => .error .typeError   -- src is None; src[prop] raises
    | .ok (some src) =>
      match extractProp src prop with
      | .error e => .error e
      | .ok v => .ok (t, some v, 0)

/-- The two sizing knobs set in `DataSet.__init__`
(`self.bigtablesize`, `self.chunksize`). -/
structure DSCfg where
  bigtablesize : Nat
  chunksize : Nat
deriving DecidableEq

/-- The values assigned in `DataSet.__init__`. -/
def dsCfgInit : DSCfg := { bigtablesize := 100000, chunksize := 50000 }

/-- The call `dt.save(newfile)` in `DataSet.import_table`.
`DataTable.save` is declared `def save(self):` (datatable.py) — it accepts
no path argument, so passing one raises `TypeError` at call time. -/
def saveWithPath (_ : DataTable) (_ : String) : Except PyErr Unit :=
  .error .typeError

/-- The call `dt.load(tmpfile)` in `DataSet.import_table`.
`DataTable.load` is declared `def load(self):` — it accepts no path
argument, so passing one raises `TypeError` at call time. -/
def loadWithPath (_ : DataTable) (_ : String) : Except PyErr DataTable :=
  .error .typeError

/-- Remote `igdbapi.maxval(endpoint, tscol)` (external collaborator): the maximum
integer value of the column over the remote table, `0`/falsy when absent. -/
def maxvalTs (g : Igdb) (tscol : String) : Int :=
  g.rows.foldl
    (fun m r => match alookup r tscol with
      | some (vint a) => max m a
      | _ => m) 0

/-- Server-side evaluation of `where tscol <= ts`. -/
def serverLeTs (tscol : String) (ts : Int) (r : Row) : Bool :=
  match alookup r tscol with
  | some (vint a) => decide (a ≤ ts)
  | _ => false

/-- Server-side evaluation of `where id > maxid`. -/
def serverIdGt (maxid : Int) (r : Row) : Bool :=
  match alookup r "id" with
  | some (vint a) => decide (maxid < a)
  | _ => false

/-- Checkpoint file name
`<table-file-stem>_<maxIdSeen>_<snapshotTimestamp>.tmp`. -/
def chkName (t : DataTable) (maxid tts : Int) : String :=
  t.filepath.replace ".csv" "" ++ "_" ++ toString maxid ++ "_" ++ toString tts ++ ".tmp"

/-- Track the maximum `x['id']` over a page (`if x['id'] > maxid`). -/
def pageMaxId (maxid : Int) (resp : List Row) : Int :=
  resp.foldl
    (fun m r => match alookup r "id" with
      | some (vint a) => max m a
      | _ => m) maxid

/-- The `param`/`prop`/`'name'` selection of `DataSet._resolve_autorefs`. -/
def autorefProp (c : ColSpec) : String := c.param.getD (c.prop.getD "name")

/-- The inner loop of `DataSet._resolve_autorefs`: for each
self-referencing column present in the row, replace the stored foreign id
with its resolution. -/
def autorefsRow (rr : RefResolver) : List ColSpec → Row → Except PyErr Row
  | [], r => .ok r
  | c :: cs, r =>
    match alookup r c.name with
    | none => autorefsRow rr cs r
    | some v =>
      match rr v (c.ref.getD "") (autorefProp c) with
      | .error e => .error e
      | .ok w => autorefsRow rr cs (aset r c.name w)

/-- The row loop of `DataSet._resolve_autorefs`. -/
def autorefsRows (rr : RefResolver) (arcols : List ColSpec) :
    List Row → Except PyErr (List Row)
  | [] => .ok []
  | r :: rs =>
    match autorefsRow rr arcols r with
    | .error e => .error e
    | .ok r' =>
      match autorefsRows rr arcols rs with
      | .error e => .error e
      | .ok rs' => .ok (r' :: rs')

/-- Source `DataSet._resolve_autorefs`: after an import, resolve every column
whose reference target is the table itself, row by row. -/
def resolveAutorefs (rr : RefResolver) (t : DataTable) : Except PyErr DataTable :=
  let arcols := (getAutorefs t).filterMap
    (fun c => match c with
      | .cdict d => some d
      | .cstr _ => none)
  if arcols = [] then .ok t
  else
    match autorefsRows rr arcols t.data with
    | .error e => .error e
    | .ok rows => .ok { t with data := rows }

/-- The epilogue of `DataSet.import_table`: `self._resolve_autorefs(dt)`
then `dt.save()` (the no-argument save, which marks the table saved; the
final `os.remove(tmpfile)` is filesystem-external). -/
def importFinish (rr : RefResolver) (t : DataTable) : Except PyErr DataTable :=
  match resolveAutorefs rr t with
  | .error e => .error e
  | .ok t' => .ok { t' with issaved := true }

/-- The download loop of `DataSet.import_table`: page through the query,
process and `add_row` every record, track `maxid`; after a page, when
chunk storage is on and `count % chunksize == 0`, write a checkpoint via
`dt.save(newfile)` (see `saveWithPath`) and drop the previous one; an
empty page breaks the loop. -/
def importGo (cfg : DSCfg) (g : Igdb) (p : Row → Bool) (fproc : Row → Row)
    (remaining : Nat) (store_chunks : Bool) (table_ts : Int) :
    Nat → Nat → Int → String → DataTable → Except PyErr DataTable
  | 0, _, _, _, _ => .error .hang
  | fuel + 1, count, maxid, tmpfile, t =>
    if remaining ≤ count then .ok t
    else
      let resp := igdbPage g p count
      match foldE (fun tb r => addRow tb (fproc r)) t resp with
      | .error e => .error e
      | .ok t' =>
        let maxid' := pageMaxId maxid resp
        let count' := count + resp.length
        if store_chunks && decide (0 < count') && decide (count' % cfg.chunksize = 0) then
          match saveWithPath t' (chkName t' maxid' table_ts) with
          | .error e => .error e
          | .ok _ =>
            -- os.remove(tmpfile) is filesystem-external
            if resp.length = 0 then .ok t'
            else importGo cfg g p fproc remaining store_chunks table_ts
                   fuel count' maxid' (chkName t' maxid' table_ts) t'
        else
          if resp.length = 0 then .ok t'
          else importGo cfg g p fproc remaining store_chunks table_ts
                 fuel count' maxid' tmpfile t'

/-- Source `DataSet.import_table`.  `chk` models the `glob` scan for an existing
checkpoint file: `some (maxIdSeen, snapshotTimestamp)` when exactly one
`<stem>_<maxid>_<ts>.tmp` file exists.  On resume the code calls
`dt.load(tmpfile)`; on a fresh start of a big table with a real timestamp
column it fixes the snapshot horizon with `maxval` first.  The
remaining-count recheck is only a logged warning and is not modelled. -/
def importTable (cfg : DSCfg) (g : Igdb) (rr : RefResolver)
    (chk : Option (Int × Int)) (t : DataTable) (fproc : Row → Row) :
    Except PyErr DataTable :=
  let total := g.rows.length
  if total = 0 then .ok t
  else
    let store_chunks := decide (cfg.bigtablesize ≤ total)
    if store_chunks then
      match chk with
      | some (maxid, tts) =>
        -- resume path: parse {maxIdSeen, snapshotTimestamp} from the
        -- filename, build `where id > maxid & tscol <= ts`, then
        -- `dt.load(tmpfile)` — which raises TypeError (no path parameter)
        let q := fun r => serverIdGt maxid r &&
          (decide (tts ≤ 0) || serverLeTs t.tscol tts r)
        match loadWithPath t (chkName t maxid tts) with
        | .error e => .error e
        | .ok t0 =>
          let remaining := igdbCount g q
          if remaining = 0 then .ok t0
          else
            match importGo cfg g q fproc remaining true tts
                    (remaining + 1) 0 maxid (chkName t maxid tts) t0 with
            | .error e => .error e
            | .ok t1 => importFinish rr t1
      | none =>
        if t.tscol ≠ "id" then
          let tts := maxvalTs g t.tscol
          if tts = 0 then .ok t   -- `if not table_ts:` — table is empty
          else
            let q := serverLeTs t.tscol tts
            let remaining := igdbCount g q
            if remaining = 0 then .ok t
            else
              match importGo cfg g q fproc remaining true tts
                      (remaining + 1) 0 0 "" t with
              | .error e => .error e
              | .ok t1 => importFinish rr t1
        else
          match importGo cfg g (fun _ => true) fproc total true 0
                  (total + 1) 0 0 "" t with
          | .error e => .error e
          | .ok t1 => importFinish rr t1
    else
      if t.tscol ≠ "id" then
        let tts := maxvalTs g t.tscol
        if tts = 0 then .ok t
        else
          let q := serverLeTs t.tscol tts
          let remaining := igdbCount g q
          if remaining = 0 then .ok t
          else
            match importGo cfg g q fproc remaining false tts
                    (remaining + 1) 0 0 "" t with
            | .error e => .error e
            | .ok t1 => importFinish rr t1
      else
        match importGo cfg g (fun _ => true) fproc total false 0
                (total + 1) 0 0 "" t with
        | .error e => .error e
        | .ok t1 => importFinish rr t1

/-! ## Concrete fixtures used by the counterexample/witness theorems -/

/-- A minimal syncable table (schema plays no role in `add_row`/`remove_row`). -/
def gamesT : DataTable := dtInit "games" "Games" "games.csv" "/games" [Col.cstr "id"]

/-- Row with id 1, timestamp 5. -/
def rowA : Row := [("id", vint 1), ("updated_at", vint 5)]

/-- Row with id 2, timestamp 9. -/
def rowB : Row := [("id", vint 2), ("updated_at", vint 9)]

/-- The table `gamesT` after upserting `rowA` then `rowB`. -/
def tAB : Except PyErr DataTable :=
  match addRow gamesT rowA with
  | .error e => .error e
  | .ok t1 => addRow t1 rowB

/-- A reference resolver that is never invoked on reference-free schemas. -/
def noRefs : RefResolver := fun _ _ _ => .error .keyError

/-- An image resolver that is never invoked on image-free schemas. -/
def noImgs : ImgResolver := fun _ _ _ => .error .keyError

/-- The run `add_row(rowA); add_row(rowB); remove_row(1)`. -/
def c2Run : Except PyErr DataTable :=
  match tAB with
  | .error e => .error e
  | .ok t => removeRow t (vint 1)

/-- The run `add_row(rowA); add_row(rowB); remove_row(2)` —
removing the row that holds the watermark maximum. -/
def c3Run : Except PyErr DataTable :=
  match tAB with
  | .error e => .error e
  | .ok t => removeRow t (vint 2)

/-- The run `add_row(rowA); remove_row(1)` — emptying the table. -/
def c3RunEmpty : Except PyErr DataTable :=
  match addRow gamesT rowA with
  | .error e => .error e
  | .ok t => removeRow t (vint 1)

/-- Fixture for C4: a table whose schema declares `id` and `name`. -/
def c4T : DataTable := dtInit "plats" "Platforms" "p.csv" "/plats" [Col.cstr "id", Col.cstr "name"]

/-- Fixture for C4: the state after loading header `["id"]` (column
`name` missing) and the single data record `[1]`. -/
def c4T1 : DataTable :=
  { c4T with data := [[("id", vint 1)]], index := [(vint 1, 0)],
             missingcols := [Col.cstr "name"] }

/-- Fixture for C10: a one-column table. -/
def c10T : DataTable := dtInit "plats" "Platforms" "p.csv" "/plats" [Col.cstr "id"]

/-- Fixture for C10: the state after loading header `["id"]` and the
single good record `[1]`. -/
def c10T1 : DataTable :=
  { c10T with data := [[("id", vint 1)]], index := [(vint 1, 0)] }

/-- Fixture for C5: processed schema `[id, d:date, updated_at]`. -/
def c5Schema : List ColSpec :=
  [{ name := "id" }, { name := "d", ctype := some "date" }, { name := "updated_at" }]

/-- Fixture for C5: a remote row whose `d` column fails the date
coercion (`None > 0` raises `TypeError` in `_proc_row`). -/
def c5Src : Row := [("id", vint 1), ("d", vnone), ("updated_at", vint 50)]

/-- Fixture for C7: `gamesT` after upserting `rowA`. -/
def c7T1 : DataTable :=
  { gamesT with data := [rowA], index := [(vint 1, 0)],
                lastupdate := vint 5, issaved := false }
/-- Fixture for C7: a second version of row id 1 (older timestamp). -/
def c7R2 : Row := [("id", vint 1), ("updated_at", vint 3)]
/-- Fixture for C7: `c7T1` after upserting `c7R2` — the row is replaced
in place. -/
def c7T2 : DataTable := { c7T1 with data := [c7R2] }
/-- Fixture for C8: a two-column reference target table. -/
def c8T : DataTable := dtInit "plats" "Platforms" "p.csv" "/plats" [Col.cstr "id", Col.cstr "name"]
/-- Fixture for C8: the remote row with id 7 (also what processing it
through `c8T`'s schema yields). -/
def c8Src : Row := [("id", vint 7), ("name", vstr "Mario")]
/-- Fixture for C8: `c8T` after lazily materialising row 7. -/
def c8T1 : DataTable := { c8T with data := [c8Src], index := [(vint 7, 0)], issaved := false }
/-- Fixture for C6 (the spec scenario): the locally cached row id 1. -/
def c6Row1 : Row := [("id", vint 1), ("updated_at", vint 50)]
/-- Fixture for C6: delta row id 7, timestamp 105. -/
def c6R7 : Row := [("id", vint 7), ("updated_at", vint 105)]
/-- Fixture for C6: delta row id 9, timestamp 110. -/
def c6R9 : Row := [("id", vint 9), ("updated_at", vint 110)]
/-- Fixture for C6: delta row id 12, timestamp 120. -/
def c6R12 : Row := [("id", vint 12), ("updated_at", vint 120)]
/-- Fixture for C6: the local table with watermark 100. -/
def c6T : DataTable :=
  { gamesT with data := [c6Row1], index := [(vint 1, 0)], lastupdate := vint 100 }
/-- Fixture for C6: the remote table (one old row, three delta rows). -/
def c6G : Igdb := ⟨[c6Row1, c6R7, c6R9, c6R12]⟩

/-! ## The index-consistency invariant -/

/-- The index/rows consistency invariant (spec §3): the index keys are
unique, every index entry points at an in-range row carrying that id, and
every row's id is indexed at the row's position. -/
structure WF (t : DataTable) : Prop where
  keys_nodup : (t.index.map Prod.fst).Nodup
  idx_row : ∀ v i, dget t.index v = some i →
    ∃ r, t.data[i]? = some r ∧ alookup r "id" = some v
  row_idx : ∀ i r, t.data[i]? = some r →
    ∃ v, alookup r "id" = some v ∧ dget t.index v = some i

/-- Executable check of the `WF` invariant (decidable on concrete tables). -/
def wfB (t : DataTable) : Bool :=
  decide ((t.index.map Prod.fst).Nodup) &&
  t.index.all (fun e =>
    match t.data[e.2]? with
    | some r => alookup r "id" == some e.1
    | none => false) &&
  (List.range t.data.length).all (fun i =>
    match t.data[i]? with
    | some r =>
      match alookup r "id" with
      | some v => dget t.index v == some i
      | none => false
    | none => true)

/-- Number of rows carrying the given id. -/
def countById (t : DataTable) (v : Val) : Nat :=
  t.data.countP (fun r => decide (alookup r "id" = some v))

/-- Number of index entries for the given id. -/
def countKey (t : DataTable) (v : Val) : Nat :=
  t.index.countP (fun e => decide (e.1 = v))

/-- Running `foldl max`, the shape in which `add_row` accumulates the watermark. -/
def listMax (b : Int) (l : List Int) : Int := l.foldl max b

/-- The integer timestamps of a row list. -/
def tsListOf (tscol : String) (l : List Row) : List Int :=
  l.filterMap (fun r =>
    match alookup r tscol with
    | some (vint a) => some a
    | _ => none)

/-- The (optional) ids of a row list. -/
def idsOf (l : List Row) : List (Option Val) := l.map (fun r => alookup r "id")

/-! ## Helper lemmas -/

theorem loadRowsGo_of_stepsAll {t t' : DataTable} {recs : List (List Val)}
    (h : stepsAll t recs = some t') : loadRowsGo t recs = t' := by
  induction recs generalizing t with
  | nil => simpa [stepsAll, loadRowsGo] using h
  | cons r rs ih =>
    unfold stepsAll at h
    unfold loadRowsGo
    cases hs : loadStep t r with
    | none => rw [hs] at h; simp at h
    | some t1 => rw [hs] at h; exact ih h

theorem loadRowsGo_stops {t t1 : DataTable} {good : List (List Val)}
    {bad : List Val} {rest : List (List Val)}
    (h : stepsAll t good = some t1) (hb : loadStep t1 bad = none) :
    loadRowsGo t (good ++ bad :: rest) = t1 := by
  induction good generalizing t with
  | nil =>
    simp [stepsAll] at h
    subst h
    simp [loadRowsGo, hb]
  | cons r rs ih =>
    unfold stepsAll at h
    cases hs : loadStep t r with
    | none => rw [hs] at h; simp at h
    | some t2 =>
      rw [hs] at h
      simpa [loadRowsGo, hs] using ih h

theorem upsertData_config (t : DataTable) (v : Val) (r : Row) :
    (upsertData t v r).schema = t.schema ∧
    (upsertData t v r).missingcols = t.missingcols ∧
    (upsertData t v r).tscol = t.tscol ∧
    (upsertData t v r).syncable = t.syncable ∧
    (upsertData t v r).tablekey = t.tablekey ∧
    (upsertData t v r).sortcol = t.sortcol ∧
    (upsertData t v r).lastupdate = t.lastupdate := by
  unfold upsertData
  split
  · split <;> exact ⟨rfl, rfl, rfl, rfl, rfl, rfl, rfl⟩
  · exact ⟨rfl, rfl, rfl, rfl, rfl, rfl, rfl⟩

/-- Every successful `addRowTs` only touches `lastupdate` and `issaved`. -/
theorem addRowTs_ok_shape {t1 t' : DataTable} {r : Row}
    (h : addRowTs t1 r = .ok t') :
    ∃ lu, t' = { t1 with lastupdate := lu, issaved := false } := by
  unfold addRowTs at h
  split at h
  · split at h
    · split at h
      · exact absurd h (by simp)
      · cases h; exact ⟨_, rfl⟩
    · cases h; exact ⟨_, rfl⟩
  · cases h; exact ⟨_, rfl⟩

/-- A successful `add_row` of a row with an id produces the upsert of that
row, with only `lastupdate`/`issaved` additionally changed. -/
theorem addRow_ok_shape {t t' : DataTable} {r : Row} {v : Val}
    (hid : alookup r "id" = some v) (h : addRow t r = .ok t') :
    ∃ lu, t' = { upsertData t v r with lastupdate := lu, issaved := false } := by
  unfold addRow at h
  rw [hid] at h
  exact addRowTs_ok_shape h

/-- The record-update part of a successful `add_row` never touches the
configuration fields of the table. -/
theorem addRow_ok_config {t t' : DataTable} {r : Row}
    (h : addRow t r = .ok t') :
    t'.schema = t.schema ∧ t'.missingcols = t.missingcols ∧
    t'.tscol = t.tscol ∧ t'.syncable = t.syncable ∧
    t'.tablekey = t.tablekey ∧ t'.sortcol = t.sortcol := by
  unfold addRow at h
  cases hid : alookup r "id" with
  | none => rw [hid] at h; cases h; exact ⟨rfl, rfl, rfl, rfl, rfl, rfl⟩
  | some v =>
    rw [hid] at h
    obtain ⟨lu, rfl⟩ := addRowTs_ok_shape h
    obtain ⟨h1, h2, h3, h4, h5, h6, _⟩ := upsertData_config t v r
    exact ⟨h1, h2, h3, h4, h5, h6⟩

theorem stepsAll_config {t t' : DataTable} {recs : List (List Val)}
    (h : stepsAll t recs = some t') :
    t'.schema = t.schema ∧ t'.missingcols = t.missingcols := by
  induction recs generalizing t with
  | nil => simp [stepsAll] at h; subst h; exact ⟨rfl, rfl⟩
  | cons r rs ih =>
    unfold stepsAll at h
    cases hs : loadStep t r with
    | none => rw [hs] at h; simp at h
    | some t1 =>
      rw [hs] at h
      obtain ⟨hs1, hs2⟩ := ih h
      unfold loadStep at hs
      cases hp : parseFields t.schema t.missingcols r with
      | error e => rw [hp] at hs; simp at hs
      | ok y =>
        rw [hp] at hs
        simp only at hs
        cases ha : addRow t y with
        | error e => rw [ha] at hs; simp at hs
        | ok t2 =>
          rw [ha] at hs
          cases hs
          obtain ⟨hc1, hc2, _, _, _, _⟩ := addRow_ok_config ha
          exact ⟨hs1.trans hc1, hs2.trans hc2⟩

theorem dget_mem {α β : Type} [DecidableEq α] {m : List (α × β)} {k : α} {x : β}
    (h : dget m k = some x) : (k, x) ∈ m := by
  induction m with
  | nil => simp [dget] at h
  | cons e rest ih =>
    obtain ⟨k', v⟩ := e
    unfold dget at h
    by_cases hk : k' = k
    · rw [if_pos hk] at h
      cases h
      subst hk
      exact List.mem_cons_self _ _
    · rw [if_neg hk] at h
      exact List.mem_cons_of_mem _ (ih h)

theorem dget_eq_none_iff {α β : Type} [DecidableEq α] {m : List (α × β)} {k : α} :
    dget m k = none ↔ k ∉ m.map Prod.fst := by
  induction m with
  | nil => simp [dget]
  | cons e rest ih =>
    obtain ⟨k', v⟩ := e
    unfold dget
    by_cases hk : k' = k
    · subst hk; simp
    · rw [if_neg hk, ih]
      simp only [List.map_cons, List.mem_cons]
      constructor
      · intro hnm hor
        rcases hor with h1 | h2
        · exact hk h1.symm
        · exact hnm h2
      · intro hn hm
        exact hn (Or.inr hm)

theorem dget_dset_self {α β : Type} [DecidableEq α] (m : List (α × β)) (k : α) (v : β) :
    dget (dset m k v) k = some v := by
  induction m with
  | nil => simp [dget, dset]
  | cons e rest ih =>
    obtain ⟨k', v'⟩ := e
    unfold dset
    by_cases hk : k' = k
    · rw [if_pos hk]; simp [dget]
    · rw [if_neg hk]; unfold dget; rw [if_neg hk]; exact ih

theorem dget_dset_ne {α β : Type} [DecidableEq α] {m : List (α × β)} {k k' : α} {v : β}
    (hne : k' ≠ k) : dget (dset m k v) k' = dget m k' := by
  induction m with
  | nil => simp [dget, dset, Ne.symm hne]
  | cons e rest ih =>
    obtain ⟨k'', v''⟩ := e
    unfold dset
    by_cases hk : k'' = k
    · rw [if_pos hk]
      unfold dget
      rw [if_neg (fun h => hne h.symm), if_neg (by rw [hk]; exact fun h => hne h.symm)]
    · rw [if_neg hk]
      unfold dget
      by_cases hk2 : k'' = k'
      · rw [if_pos hk2, if_pos hk2]
      · rw [if_neg hk2, if_neg hk2]; exact ih

theorem keys_dset {α β : Type} [DecidableEq α] (m : List (α × β)) (k : α) (v : β) :
    (dset m k v).map Prod.fst =
      if k ∈ m.map Prod.fst then m.map Prod.fst else m.map Prod.fst ++ [k] := by
  induction m with
  | nil => simp [dset]
  | cons e rest ih =>
    obtain ⟨k', v'⟩ := e
    unfold dset
    by_cases hk : k' = k
    · subst hk; simp
    · rw [if_neg hk]
      have hkk : k ≠ k' := Ne.symm hk
      by_cases hm : k ∈ rest.map Prod.fst
      · have hcond : k ∈ ((k', v') :: rest).map Prod.fst := by
          simp only [List.map_cons, List.mem_cons]
          exact Or.inr hm
        rw [if_pos hcond]
        simp only [List.map_cons]
        rw [ih, if_pos hm]
      · have hcond : k ∉ ((k', v') :: rest).map Prod.fst := by
          simp only [List.map_cons, List.mem_cons]
          rintro (h1 | h2)
          · exact hkk h1
          · exact hm h2
        rw [if_neg hcond]
        simp only [List.map_cons]
        rw [ih, if_neg hm]
        simp

theorem keys_nodup_dset {α β : Type} [DecidableEq α] {m : List (α × β)} {k : α} {v : β}
    (h : (m.map Prod.fst).Nodup) : ((dset m k v).map Prod.fst).Nodup := by
  rw [keys_dset]
  split
  · exact h
  · rename_i hk
    simp [List.nodup_append, h, hk]

theorem dset_ne_nil {α β : Type} [DecidableEq α] (m : List (α × β)) (k : α) (v : β) :
    dset m k v ≠ [] := by
  cases m with
  | nil => simp [dset]
  | cons e rest =>
    obtain ⟨k', v'⟩ := e
    unfold dset
    split <;> simp

/-- Soundness of the executable invariant check. -/
theorem wfB_sound {t : DataTable} (h : wfB t = true) : WF t := by
  unfold wfB at h
  simp only [Bool.and_eq_true, List.all_eq_true, decide_eq_true_eq] at h
  obtain ⟨⟨h1, h2⟩, h3⟩ := h
  refine ⟨h1, ?_, ?_⟩
  · intro v i hdg
    have hm := h2 (v, i) (dget_mem hdg)
    cases hd : t.data[i]? with
    | none => rw [hd] at hm; simp at hm
    | some r =>
      rw [hd] at hm
      dsimp only at hm
      simp only [beq_iff_eq] at hm
      exact ⟨r, rfl, hm⟩
  · intro i r hir
    have hi : i < t.data.length := (List.getElem?_eq_some.mp hir).1
    have hm := h3 i (List.mem_range.mpr hi)
    rw [hir] at hm
    dsimp only at hm
    cases hid : alookup r "id" with
    | none => rw [hid] at hm; simp at hm
    | some v =>
      rw [hid] at hm
      dsimp only at hm
      simp only [beq_iff_eq] at hm
      exact ⟨v, rfl, hm⟩

/-- Under `WF`, a false `in_index` means the id is truly absent. -/
theorem WF.not_inIndex_dget {t : DataTable} {v : Val} (hWF : WF t)
    (h : t.inIndex v = false) : dget t.index v = none := by
  cases hd : dget t.index v with
  | none => rfl
  | some i =>
    obtain ⟨r, hr, _⟩ := hWF.idx_row v i hd
    have hlt : i < t.data.length := (List.getElem?_eq_some.mp hr).1
    unfold DataTable.inIndex at h
    rw [hd] at h
    simp [hlt] at h

theorem upsertData_inIndex_true {t : DataTable} {v : Val} (r : Row)
    (h : t.inIndex v = true) :
    ∃ i, dget t.index v = some i ∧ i < t.data.length ∧
      upsertData t v r = { t with data := t.data.set i r } := by
  unfold DataTable.inIndex at h
  cases hd : dget t.index v with
  | none => rw [hd] at h; simp at h
  | some i =>
    rw [hd] at h
    simp only [decide_eq_true_eq] at h
    refine ⟨i, rfl, h, ?_⟩
    unfold upsertData
    rw [if_pos (by unfold DataTable.inIndex; rw [hd]; simpa using h)]
    rw [hd]

theorem upsertData_inIndex_false {t : DataTable} {v : Val} (r : Row)
    (h : t.inIndex v = false) :
    upsertData t v r =
      { t with data := t.data ++ [r], index := dset t.index v t.data.length } := by
  unfold upsertData
  rw [if_neg (by rw [h]; simp)]

/-- The upsert `upsertData` preserves the index-consistency invariant. -/
theorem WF.upsert {t : DataTable} {v : Val} {r : Row} (hWF : WF t)
    (hid : alookup r "id" = some v) : WF (upsertData t v r) := by
  cases hin : t.inIndex v with
  | true =>
    obtain ⟨i, hd, hlt, heq⟩ := upsertData_inIndex_true r hin
    rw [heq]
    refine ⟨hWF.keys_nodup, ?_, ?_⟩
    · intro v' i' hd'
      obtain ⟨r', hr', hid'⟩ := hWF.idx_row v' i' hd'
      by_cases hii : i' = i
      · obtain ⟨r0, hr0, hid0⟩ := hWF.idx_row v i hd
        subst hii
        rw [hr0] at hr'
        cases hr'
        have hv : v' = v := by
          rw [hid'] at hid0
          exact Option.some.inj hid0
        subst hv
        exact ⟨r, by simp [List.getElem?_set_self hlt], hid⟩
      · exact ⟨r', by rw [List.getElem?_set_ne (fun hh => hii hh.symm)]; exact hr', hid'⟩
    · intro i' r' hr'
      by_cases hii : i' = i
      · subst hii
        rw [List.getElem?_set_self hlt] at hr'
        cases hr'
        exact ⟨v, hid, hd⟩
      · rw [List.getElem?_set_ne (fun hh => hii hh.symm)] at hr'
        exact hWF.row_idx i' r' hr'
  | false =>
    have hd0 : dget t.index v = none := hWF.not_inIndex_dget hin
    have hk : v ∉ t.index.map Prod.fst := dget_eq_none_iff.mp hd0
    rw [upsertData_inIndex_false r hin]
    refine ⟨keys_nodup_dset hWF.keys_nodup, ?_, ?_⟩
    · intro v' i' hd'
      by_cases hv : v' = v
      · subst hv
        rw [dget_dset_self] at hd'
        cases hd'
        exact ⟨r, List.getElem?_concat_length _ _, hid⟩
      · rw [dget_dset_ne hv] at hd'
        obtain ⟨r', hr', hid'⟩ := hWF.idx_row v' i' hd'
        have hlt' : i' < t.data.length := (List.getElem?_eq_some.mp hr').1
        refine ⟨r', ?_, hid'⟩
        rw [List.getElem?_append]
        rw [if_pos hlt']
        exact hr'
    · intro i' r' hr'
      rcases Nat.lt_or_ge i' t.data.length with hlt' | hge
      · rw [List.getElem?_append, if_pos hlt'] at hr'
        obtain ⟨v', hid', hd'⟩ := hWF.row_idx i' r' hr'
        have hvv : v' ≠ v := by
          intro hh
          subst hh
          rw [hd0] at hd'
          cases hd'
        exact ⟨v', hid', by rw [dget_dset_ne hvv]; exact hd'⟩
      · have hlen : i' < t.data.length + 1 := by
          have := (List.getElem?_eq_some.mp hr').1
          simpa using this
        have hi : i' = t.data.length := le_antisymm (Nat.lt_succ_iff.mp hlen) hge
        subst hi
        rw [List.getElem?_concat_length] at hr'
        cases hr'
        exact ⟨v, hid, by rw [dget_dset_self]⟩

/-- Invariant `WF` only looks at `data` and `index`. -/
theorem WF.congr {t t' : DataTable} (hWF : WF t)
    (hd : t'.data = t.data) (hi : t'.index = t.index) : WF t' := by
  refine ⟨?_, ?_, ?_⟩
  · rw [hi]; exact hWF.keys_nodup
  · intro v i h; rw [hi] at h; rw [hd]; exact hWF.idx_row v i h
  · intro i r h; rw [hd] at h; rw [hi]; exact hWF.row_idx i r h

/-- A successful `add_row` preserves the invariant. -/
theorem WF.addRow_pres {t t' : DataTable} {r : Row} (hWF : WF t)
    (h : addRow t r = .ok t') : WF t' := by
  cases hid : alookup r "id" with
  | none =>
    unfold addRow at h
    rw [hid] at h
    cases h
    exact hWF
  | some v =>
    obtain ⟨lu, rfl⟩ := addRow_ok_shape hid h
    exact (hWF.upsert hid).congr rfl rfl

/-- Under `WF`, each indexed id occurs on exactly one row. -/
theorem WF.ids_nodup {t : DataTable} (hWF : WF t) :
    (t.data.map (fun r => alookup r "id")).Nodup := by
  rw [List.Nodup, List.pairwise_iff_getElem]
  intro i j hi hj hij
  simp only [List.length_map] at hi hj
  rw [List.getElem_map, List.getElem_map]
  intro heq
  obtain ⟨vi, hvi, hdi⟩ := hWF.row_idx i _ (List.getElem?_eq_getElem hi)
  obtain ⟨vj, hvj, hdj⟩ := hWF.row_idx j _ (List.getElem?_eq_getElem hj)
  rw [hvi, hvj] at heq
  cases heq
  rw [hdi] at hdj
  cases hdj
  exact absurd rfl (Nat.ne_of_lt hij)

/-- In a duplicate-free list, a present element is counted exactly once. -/
theorem countP_eq_one_of_nodup {α : Type} [DecidableEq α] {l : List α}
    (h : l.Nodup) {a : α} (hm : a ∈ l) :
    l.countP (fun x => decide (x = a)) = 1 := by
  induction l with
  | nil => cases hm
  | cons b rest ih =>
    rw [List.countP_cons]
    rcases List.mem_cons.mp hm with rfl | hmem
    · have hnot : a ∉ rest := (List.nodup_cons.mp h).1
      have hz : rest.countP (fun x => decide (x = a)) = 0 := by
        rw [List.countP_eq_zero]
        intro x hx
        simp only [decide_eq_true_eq]
        intro hxa
        exact hnot (hxa ▸ hx)
      simp [hz]
    · have hne : b ≠ a := by
        rintro rfl
        exact (List.nodup_cons.mp h).1 hmem
      have ihh := ih (List.nodup_cons.mp h).2 hmem
      simp [ihh, hne]

theorem countById_eq_one {t : DataTable} {v : Val} {i : Nat} (hWF : WF t)
    (hd : dget t.index v = some i) : countById t v = 1 := by
  unfold countById
  have h1 : t.data.countP (fun r => decide (alookup r "id" = some v))
      = (t.data.map (fun r => alookup r "id")).countP (fun x => decide (x = some v)) := by
    rw [List.countP_map]
    rfl
  rw [h1]
  obtain ⟨r, hr, hid⟩ := hWF.idx_row v i hd
  have hmem : some v ∈ t.data.map (fun r => alookup r "id") :=
    List.mem_map.mpr ⟨r, List.getElem?_mem hr, hid⟩
  exact countP_eq_one_of_nodup hWF.ids_nodup hmem

theorem countKey_eq_one {t : DataTable} {v : Val} {i : Nat} (hWF : WF t)
    (hd : dget t.index v = some i) : countKey t v = 1 := by
  unfold countKey
  have h1 : t.index.countP (fun e => decide (e.1 = v))
      = (t.index.map Prod.fst).countP (fun x => decide (x = v)) := by
    rw [List.countP_map]
    rfl
  rw [h1]
  have hmem : v ∈ t.index.map Prod.fst :=
    List.mem_map.mpr ⟨(v, i), dget_mem hd, rfl⟩
  exact countP_eq_one_of_nodup hWF.keys_nodup hmem

/-! ## Claim theorems -/

/-- C9: upsert of a row lacking an `id` field has no effect at all —
for every table state and every row without an `id` key, `add_row`
returns the table with rows, index, watermark and dirty flag exactly as
they were (the row is silently dropped; no exception escapes). -/
theorem C9_addRow_without_id_is_noop (t : DataTable) (r : Row)
    (h : alookup r "id" = none) : addRow t r = .ok t := by
  simp [addRow, h]

theorem C9_witness :
    alookup [("name", vstr "Zelda")] "id" = none ∧
    addRow gamesT [("name", vstr "Zelda")] = .ok gamesT :=
  ⟨by decide, C9_addRow_without_id_is_noop gamesT [("name", vstr "Zelda")] (by decide)⟩

/-- C2 (code bug): after `add_row({id 1})`, `add_row({id 2})`,
`remove_row(1)`, the surviving row `{id 2}` sits at position 0 of the
rows list, yet the index still maps id 2 to position 1 — `remove_row`
pops the row without re-indexing the rows behind it, so
`index[r.id] == position of r` is violated (and `in_index(2)` is even
false, making the row unreachable through the index). -/
theorem C2_stale_index_after_remove :
    c2Run.map (fun t => (t.data, dget t.index (vint 2), t.inIndex (vint 2)))
      = .ok ([rowB], some 1, false) := by decide

/-- C3 (code bug): removing the row that holds the watermark maximum does
NOT recompute the watermark as a timestamp: `remove_row` executes
`self.lastupdate = max(self.data, key=...)`, which assigns the maximal
remaining ROW (a dict) — here the whole row `{id 1, updated_at 5}`
instead of `5`; and removing the last row raises `ValueError` (empty
`max`) instead of resetting the watermark to 0. -/
theorem C3_remove_breaks_watermark :
    c3Run.map (fun t => t.lastupdate) = .ok (vdict rowA) ∧
    c3RunEmpty = .error .valueError := by
  constructor <;> decide

/-- C1 (code bug): the resumable chunked import cannot resume — when a
checkpoint file exists for a large table, `import_table` calls
`dt.load(tmpfile)`, but `DataTable.load` takes no path argument, so the
call raises `TypeError` (and the checkpoint writes `dt.save(newfile)`
fail the same way, cf. `saveWithPath`), for any table, processor and
remote content at or above the large-table threshold. -/
theorem C1_resume_from_checkpoint_raises (cfg : DSCfg) (g : Igdb)
    (rr : RefResolver) (maxid tts : Int) (t : DataTable) (fproc : Row → Row)
    (hne : g.rows ≠ []) (hbig : cfg.bigtablesize ≤ g.rows.length) :
    importTable cfg g rr (some (maxid, tts)) t fproc = .error .typeError := by
  simp [importTable, loadWithPath, List.length_eq_zero, hne, hbig]

theorem C1_witness :
    ([[("id", vint 1)], [("id", vint 2)]] : List Row) ≠ [] ∧
    (2 : Nat) ≤ ([[("id", vint 1)], [("id", vint 2)]] : List Row).length ∧
    importTable ⟨2, 1⟩ ⟨[[("id", vint 1)], [("id", vint 2)]]⟩ noRefs
      (some (0, 0)) gamesT id = .error .typeError :=
  ⟨by decide, by decide,
    C1_resume_from_checkpoint_raises ⟨2, 1⟩ ⟨[[("id", vint 1)], [("id", vint 2)]]⟩
      noRefs 0 0 gamesT id (by decide) (by decide)⟩

/-- C4 counterexample: loading a file whose header `["id"]` does not
match the two-column schema `[id, name]` does NOT fail and does NOT leave
the table empty — the data row is parsed (for the columns present) and
stored, the mismatch being only recorded in `missingcols`. -/
theorem C4_counterexample :
    (loadTable c4T [[vstr "id"], [vint 1]]).data = [[("id", vint 1)]] ∧
    (loadTable c4T [[vstr "id"], [vint 1]]).missingcols = [Col.cstr "name"] ∧
    (loadTable c4T [[vstr "id"], [vint 1]]).issaved = true := by
  refine ⟨by decide, by decide, by decide⟩

/-- C4 amended: a schema/header mismatch on load is not fatal and raises
nothing: `load` records the schema columns absent from the header in
`missingcols` and proceeds to parse and store the data rows (the dataset
later re-fetches the missing columns via `expand_table`); the table does
not end up empty. -/
theorem C4_header_mismatch_loads_rows (t : DataTable) (hdr : List Val)
    (recs : List (List Val)) (t1 : DataTable)
    (hok : stepsAll (postHeader t hdr) recs = some t1) :
    loadTable t (hdr :: recs) = { t1 with issaved := true } ∧
    t1.missingcols = headerMissing t.schema hdr := by
  constructor
  · show { loadRowsGo (postHeader t hdr) recs with issaved := true } = _
    rw [loadRowsGo_of_stepsAll hok]
  · simpa [postHeader] using (stepsAll_config hok).2

theorem C4_witness :
    stepsAll (postHeader c4T [vstr "id"]) [[vint 1]] = some c4T1 ∧
    (loadTable c4T [[vstr "id"], [vint 1]] = { c4T1 with issaved := true } ∧
      c4T1.missingcols = headerMissing c4T.schema [vstr "id"]) :=
  ⟨by decide, C4_header_mismatch_loads_rows c4T [vstr "id"] [[vint 1]] c4T1 (by decide)⟩

/-- C10: an exception while parsing a data row is caught inside
`DataTable.load`: parsing stops at the offending record, the table keeps
exactly the rows parsed before it (the records after it are never
touched), and `issaved` is set to true just as for a full load. -/
theorem C10_load_catches_row_error (t : DataTable) (hdr : List Val)
    (good : List (List Val)) (bad : List Val) (rest : List (List Val))
    (t1 : DataTable) (e : PyErr)
    (hok : stepsAll (postHeader t hdr) good = some t1)
    (hbad : parseFields t1.schema t1.missingcols bad = .error e) :
    loadTable t (hdr :: (good ++ bad :: rest)) = { t1 with issaved := true } := by
  show { loadRowsGo (postHeader t hdr) (good ++ bad :: rest) with issaved := true } = _
  rw [loadRowsGo_stops hok (by simp [loadStep, hbad])]

theorem C10_witness :
    stepsAll (postHeader c10T [vstr "id"]) [[vint 1]] = some c10T1 ∧
    parseFields c10T1.schema c10T1.missingcols [vstr "oops"] = .error .valueError ∧
    loadTable c10T ([vstr "id"] :: ([[vint 1]] ++ [vstr "oops"] :: [[vint 3]]))
      = { c10T1 with issaved := true } :=
  ⟨by decide, by decide,
    C10_load_catches_row_error c10T [vstr "id"] [[vint 1]] [vstr "oops"] [[vint 3]]
      c10T1 .valueError (by decide) (by decide)⟩

/-- C5 counterexample: a row-level transform failure does NOT cause the
row to be skipped.  Syncing one remote row whose `d` column raises during
coercion still stores the row (with the failing column dropped): the
final table holds the partial row `{id 1, updated_at 50}` and the
watermark advances — the claim demands an empty table. -/
theorem C5_counterexample :
    (syncTable ⟨[c5Src]⟩ gamesT
        (fun r => procRow noRefs noImgs r c5Schema "games")).map
        (fun t => (t.data, t.lastupdate))
      = .ok ([[("id", vint 1), ("updated_at", vint 50)]], vint 50) := by
  decide

/-- C5 amended: a row-level transform failure (bad type coercion or a
raising column) is caught per COLUMN inside `_proc_row`: the failing
column alone is skipped, the row's remaining columns are processed
normally and the resulting partial row is returned (and hence stored by
the surrounding import/sync whenever it still carries an `id`). -/
theorem C5_failing_column_skipped (rr : RefResolver) (ri : ImgResolver)
    (srcrow : Row) (tkey : String) (pre post : List ColSpec) (cx : ColSpec)
    (e : PyErr) (h : colStep rr ri srcrow tkey cx = .error e) :
    procRow rr ri srcrow (pre ++ cx :: post) tkey
      = procRow rr ri srcrow (pre ++ post) tkey := by
  unfold procRow
  rw [List.foldl_append, List.foldl_append, List.foldl_cons, h]

theorem C5_witness :
    colStep noRefs noImgs c5Src "games" { name := "d", ctype := some "date" }
        = .error .typeError ∧
    procRow noRefs noImgs c5Src
        ([{ name := "id" }] ++ { name := "d", ctype := some "date" } :: [{ name := "updated_at" }]) "games"
      = procRow noRefs noImgs c5Src ([{ name := "id" }] ++ [{ name := "updated_at" }]) "games" :=
  ⟨by decide,
    C5_failing_column_skipped noRefs noImgs c5Src "games"
      [{ name := "id" }] [{ name := "updated_at" }]
      { name := "d", ctype := some "date" } .typeError (by decide)⟩

/-- C7: upsert idempotence — starting from any table satisfying the index
invariant, two successful `add_row` calls with the same id leave exactly
one row with that id, holding the values of the second (latest) row, with
a single index entry for that id, and the second call does not change the
row count. -/
theorem C7_upsert_latest_wins (t t1 t2 : DataTable) (r1 r2 : Row) (v : Val)
    (hWFb : wfB t = true)
    (h1 : alookup r1 "id" = some v) (h2 : alookup r2 "id" = some v)
    (ha1 : addRow t r1 = .ok t1) (ha2 : addRow t1 r2 = .ok t2) :
    countById t2 v = 1 ∧ countKey t2 v = 1 ∧
    (∃ i, dget t2.index v = some i ∧ t2.data[i]? = some r2) ∧
    t2.data.length = t1.data.length := by
  have hWF := wfB_sound hWFb
  have hWF1 : WF t1 := hWF.addRow_pres ha1
  have hWF2 : WF t2 := hWF1.addRow_pres ha2
  have hin1 : ∃ i, dget t1.index v = some i ∧ i < t1.data.length := by
    obtain ⟨lu, rfl⟩ := addRow_ok_shape h1 ha1
    cases hin : t.inIndex v with
    | true =>
      obtain ⟨i, hd, hlt, heq⟩ := upsertData_inIndex_true r1 hin
      rw [heq]
      exact ⟨i, hd, by simpa [List.length_set] using hlt⟩
    | false =>
      rw [upsertData_inIndex_false r1 hin]
      exact ⟨t.data.length, by simp [dget_dset_self], by simp⟩
  obtain ⟨i, hd1, hlt1⟩ := hin1
  have hin1b : t1.inIndex v = true := by
    unfold DataTable.inIndex
    rw [hd1]
    simpa using hlt1
  obtain ⟨lu2, ht2⟩ := addRow_ok_shape h2 ha2
  obtain ⟨i', hd', hlt', heq'⟩ := upsertData_inIndex_true r2 hin1b
  rw [hd1] at hd'
  injection hd' with hii
  subst hii
  have hdata2 : t2.data = t1.data.set i r2 := by rw [ht2, heq']
  have hindex2 : t2.index = t1.index := by rw [ht2, heq']
  refine ⟨?_, ?_, ⟨i, ?_, ?_⟩, ?_⟩
  · exact countById_eq_one hWF2 (by rw [hindex2]; exact hd1)
  · exact countKey_eq_one hWF2 (by rw [hindex2]; exact hd1)
  · rw [hindex2]; exact hd1
  · rw [hdata2]; exact List.getElem?_set_self hlt1
  · rw [hdata2, List.length_set]

theorem C7_witness :
    wfB gamesT = true ∧
    alookup rowA "id" = some (vint 1) ∧ alookup c7R2 "id" = some (vint 1) ∧
    addRow gamesT rowA = .ok c7T1 ∧ addRow c7T1 c7R2 = .ok c7T2 ∧
    (countById c7T2 (vint 1) = 1 ∧ countKey c7T2 (vint 1) = 1 ∧
      (∃ i, dget c7T2.index (vint 1) = some i ∧ c7T2.data[i]? = some c7R2) ∧
      c7T2.data.length = c7T1.data.length) :=
  ⟨by decide, by decide, by decide, by decide, by decide,
    C7_upsert_latest_wins gamesT c7T1 c7T2 rowA c7R2 (vint 1)
      (by decide) (by decide) (by decide) (by decide) (by decide)⟩

/-- C8: reference caching — resolving a foreign id that misses the target
table's index fetches the single remote row once, materialises it into
the table, and a second resolution of the same id is an index hit
performing no remote fetch (and returns the same value from the same,
unchanged table): at most one fetch per id across the two resolutions. -/
theorem C8_second_resolution_is_index_hit
    (rr : RefResolver) (ri : ImgResolver) (g : Igdb) (t t1 : DataTable)
    (idx : Val) (prop : PropSel) (v1 : Option Val) (n1 : Nat)
    (x : Row) (xs : List Row)
    (hWFb : wfB t = true)
    (hmiss : t.inIndex idx = false)
    (hresp : refQuery g idx = x :: xs)
    (hid : alookup (procRow rr ri x (getFullSchema t) t.tablekey) "id" = some idx)
    (hfirst : fetchRef rr ri g t idx prop = .ok (t1, v1, n1)) :
    n1 = 1 ∧ t1.inIndex idx = true ∧
    fetchRef rr ri g t1 idx prop = .ok (t1, v1, 0) := by
  have hWF := wfB_sound hWFb
  unfold fetchRef at hfirst
  rw [hmiss] at hfirst
  simp only [Bool.not_false, if_true, hresp] at hfirst
  cases ha : addRow t (procRow rr ri x (getFullSchema t) t.tablekey) with
  | error e => rw [ha] at hfirst; simp at hfirst
  | ok t' =>
    rw [ha] at hfirst
    dsimp only at hfirst
    cases he : extractProp (procRow rr ri x (getFullSchema t) t.tablekey) prop with
    | error e => rw [he] at hfirst; simp at hfirst
    | ok v =>
      rw [he] at hfirst
      dsimp only at hfirst
      injection hfirst with hfirst
      injection hfirst with ht1 hrest
      injection hrest with hv1 hn1
      subst ht1
      subst hv1
      subst hn1
      obtain ⟨lu, rfl⟩ := addRow_ok_shape hid ha
      rw [upsertData_inIndex_false _ hmiss]
      have hdget1 : dget (dset t.index idx t.data.length) idx = some t.data.length :=
        dget_dset_self _ _ _
      have hat : (t.data ++ [procRow rr ri x (getFullSchema t) t.tablekey])[t.data.length]?
          = some (procRow rr ri x (getFullSchema t) t.tablekey) :=
        List.getElem?_concat_length _ _
      have hin1 : DataTable.inIndex
          { upsertData t idx (procRow rr ri x (getFullSchema t) t.tablekey) with
            lastupdate := lu, issaved := false } idx = true := by
        rw [upsertData_inIndex_false _ hmiss]
        unfold DataTable.inIndex
        dsimp only
        rw [hdget1]
        simp
      rw [upsertData_inIndex_false _ hmiss] at hin1
      refine ⟨rfl, hin1, ?_⟩
      unfold fetchRef
      rw [hin1]
      simp only [Bool.not_true, Bool.false_eq_true, if_false]
      have hget : getRow
          { t with data := t.data ++ [procRow rr ri x (getFullSchema t) t.tablekey],
                   index := dset t.index idx t.data.length,
                   lastupdate := lu, issaved := false } idx
          = .ok (some (procRow rr ri x (getFullSchema t) t.tablekey)) := by
        unfold getRow
        dsimp only
        rw [if_pos (dset_ne_nil _ _ _), hdget1]
        dsimp only
        rw [hat]
      rw [hget]
      dsimp only
      rw [he]

theorem C8_witness :
    wfB c8T = true ∧
    c8T.inIndex (vint 7) = false ∧
    refQuery ⟨[c8Src]⟩ (vint 7) = c8Src :: [] ∧
    alookup (procRow noRefs noImgs c8Src (getFullSchema c8T) c8T.tablekey) "id" = some (vint 7) ∧
    fetchRef noRefs noImgs ⟨[c8Src]⟩ c8T (vint 7) (.pstr "name")
      = .ok (c8T1, some (vstr "Mario"), 1) ∧
    ((1 : Nat) = 1 ∧ c8T1.inIndex (vint 7) = true ∧
      fetchRef noRefs noImgs ⟨[c8Src]⟩ c8T1 (vint 7) (.pstr "name")
        = .ok (c8T1, some (vstr "Mario"), 0)) :=
  ⟨by decide, by decide, by decide, by decide, by decide,
    C8_second_resolution_is_index_hit noRefs noImgs ⟨[c8Src]⟩ c8T c8T1 (vint 7)
      (.pstr "name") (some (vstr "Mario")) 1 c8Src []
      (by decide) (by decide) (by decide) (by decide) (by decide)⟩

theorem addRowTs_typed {t1 : DataTable} {r : Row} {a b : Int}
    (hsync : t1.syncable = true) (hts : alookup r t1.tscol = some (vint a))
    (hlw : t1.lastupdate = vint b) :
    addRowTs t1 r = .ok { t1 with lastupdate := vint (max b a), issaved := false } := by
  unfold addRowTs
  rw [hts, hlw]
  simp only [hsync, if_true, pyGt]
  by_cases hba : b < a
  · simp [hba, max_eq_right (le_of_lt hba)]
  · simp [hba, max_eq_left (not_lt.mp hba)]

/-- Evaluating `add_row` on well-typed integer timestamps: the upsert plus the
monotone watermark update `max`. -/
theorem addRow_typed {t : DataTable} {r : Row} {v : Val} {a b : Int}
    (hid : alookup r "id" = some v) (hsync : t.syncable = true)
    (hts : alookup r t.tscol = some (vint a)) (hlw : t.lastupdate = vint b) :
    addRow t r
      = .ok { upsertData t v r with lastupdate := vint (max b a), issaved := false } := by
  unfold addRow
  rw [hid]
  obtain ⟨_, _, h3, h4, _, _, h7⟩ := upsertData_config t v r
  exact addRowTs_typed (by rw [h4, hsync]) (by rw [h3]; exact hts) (by rw [h7, hlw])

/-- Upserting an id leaves every row with a different id in place. -/
theorem upsert_frame {t : DataTable} {v : Val} {r : Row} (hWF : WF t)
    (i : Nat) (r' : Row) (hr' : t.data[i]? = some r')
    (hne : alookup r' "id" ≠ some v) :
    (upsertData t v r).data[i]? = some r' := by
  cases hin : t.inIndex v with
  | true =>
    obtain ⟨j, hd, hlt, heq⟩ := upsertData_inIndex_true r hin
    rw [heq]
    dsimp only
    obtain ⟨r0, hr0, hid0⟩ := hWF.idx_row v j hd
    have hij : i ≠ j := by
      rintro rfl
      rw [hr'] at hr0
      cases hr0
      exact hne hid0
    rw [List.getElem?_set_ne (fun hh => hij hh.symm)]
    exact hr'
  | false =>
    rw [upsertData_inIndex_false r hin]
    dsimp only
    have hlt : i < t.data.length := (List.getElem?_eq_some.mp hr').1
    rw [List.getElem?_append, if_pos hlt]
    exact hr'

/-- Upserting an id leaves every other id's index entry unchanged. -/
theorem upsert_index_frame {t : DataTable} {v v' : Val} {r : Row}
    (hne : v' ≠ v) : dget (upsertData t v r).index v' = dget t.index v' := by
  cases hin : t.inIndex v with
  | true =>
    obtain ⟨j, _, _, heq⟩ := upsertData_inIndex_true r hin
    rw [heq]
  | false =>
    rw [upsertData_inIndex_false r hin]
    dsimp only
    exact dget_dset_ne hne

/-- After upserting a row with id `v`, that row is indexed and stored. -/
theorem upsert_present {t : DataTable} {v : Val} {r : Row} (hWF : WF t) :
    ∃ i, dget (upsertData t v r).index v = some i ∧
      (upsertData t v r).data[i]? = some r := by
  cases hin : t.inIndex v with
  | true =>
    obtain ⟨j, hd, hlt, heq⟩ := upsertData_inIndex_true r hin
    rw [heq]
    exact ⟨j, hd, by dsimp only; rw [List.getElem?_set_self hlt]⟩
  | false =>
    have hd0 : dget t.index v = none := hWF.not_inIndex_dget hin
    rw [upsertData_inIndex_false r hin]
    refine ⟨t.data.length, ?_, ?_⟩
    · dsimp only
      exact dget_dset_self _ _ _
    · dsimp only
      exact List.getElem?_concat_length _ _

theorem tsListOf_cons {tscol : String} {r : Row} {rs : List Row} {a : Int}
    (h : alookup r tscol = some (vint a)) :
    tsListOf tscol (r :: rs) = a :: tsListOf tscol rs := by
  unfold tsListOf
  rw [List.filterMap_cons, h]

theorem idsOf_cons (r : Row) (rs : List Row) :
    idsOf (r :: rs) = alookup r "id" :: idsOf rs := rfl

theorem listMax_cons (b a : Int) (l : List Int) :
    listMax b (a :: l) = listMax (max b a) l := rfl

theorem listMax_ge (l : List Int) : ∀ b : Int,
    b ≤ listMax b l ∧ ∀ a ∈ l, a ≤ listMax b l := by
  induction l with
  | nil => intro b; exact ⟨le_refl _, by simp⟩
  | cons a rest ih =>
    intro b
    rw [listMax_cons]
    obtain ⟨h1, h2⟩ := ih (max b a)
    refine ⟨le_trans (le_max_left _ _) h1, ?_⟩
    intro x hx
    rcases List.mem_cons.mp hx with rfl | hmem
    · exact le_trans (le_max_right _ _) h1
    · exact h2 x hmem

theorem listMax_mem_or (l : List Int) : ∀ b : Int,
    listMax b l = b ∨ listMax b l ∈ l := by
  induction l with
  | nil => intro b; exact Or.inl rfl
  | cons a rest ih =>
    intro b
    rw [listMax_cons]
    rcases ih (max b a) with h | h
    · rcases max_choice b a with hm | hm
      · exact Or.inl (by rw [h, hm])
      · exact Or.inr (by rw [h, hm]; exact List.mem_cons_self _ _)
    · exact Or.inr (List.mem_cons_of_mem _ h)

/-- When the list is non-empty and every element exceeds the start value,
`foldl max` lands on the list's maximum element. -/
theorem listMax_spec {l : List Int} {b : Int} (hne : l ≠ [])
    (hgt : ∀ a ∈ l, b < a) :
    listMax b l ∈ l ∧ ∀ a ∈ l, a ≤ listMax b l := by
  obtain ⟨h1, h2⟩ := listMax_ge l b
  refine ⟨?_, h2⟩
  rcases listMax_mem_or l b with h | h
  · cases l with
    | nil => exact absurd rfl hne
    | cons a rest =>
      have := hgt a (List.mem_cons_self _ _)
      have := h2 a (List.mem_cons_self _ _)
      omega
  · exact h

theorem foldE_append (step : DataTable → Row → Except PyErr DataTable)
    (t : DataTable) (l1 l2 : List Row) :
    foldE step t (l1 ++ l2)
      = match foldE step t l1 with
        | .error e => .error e
        | .ok t' => foldE step t' l2 := by
  induction l1 generalizing t with
  | nil => simp [foldE]
  | cons r rs ih =>
    simp only [List.cons_append]
    show (match step t r with
      | Except.error e => Except.error e
      | Except.ok t' => foldE step t' (rs ++ l2)) =
      match (match step t r with
        | Except.error e => Except.error e
        | Except.ok t' => foldE step t' rs) with
      | Except.error e => Except.error e
      | Except.ok t' => foldE step t' l2
    cases hs : step t r with
    | error e => rfl
    | ok t' => dsimp only; exact ih t'

/-- Splitting a suffix at a page boundary. -/
theorem drop_take_chunk {α : Type} (l : List α) (n k : Nat) :
    l.drop n = (l.drop n).take k ++ l.drop (n + ((l.drop n).take k).length) := by
  rcases le_or_lt (l.length - n) k with hle | hlt
  · have hlen : (l.drop n).length ≤ k := by
      rw [List.length_drop]
      exact hle
    rw [List.take_of_length_le hlen]
    have hnil : l.drop (n + (l.drop n).length) = [] := by
      apply List.drop_eq_nil_of_le
      rw [List.length_drop]
      omega
    rw [hnil]
    simp
  · have hlen : ((l.drop n).take k).length = k := by
      rw [List.length_take, List.length_drop]
      omega
    rw [hlen]
    conv_lhs => rw [← List.take_append_drop k (l.drop n)]
    rw [List.drop_drop]

/-- The paging loop of `_fetch_table`, when `total` really is the number
of matching remote rows, processes exactly the filtered rows in order. -/
theorem fetchTableGo_eq (step : DataTable → Row → Except PyErr DataTable)
    (g : Igdb) (p : Row → Bool) :
    ∀ (fuel count : Nat) (t : DataTable),
      count ≤ (g.rows.filter p).length →
      (g.rows.filter p).length - count < fuel →
      fetchTableGo step g p ((g.rows.filter p).length) fuel count t
        = foldE step t ((g.rows.filter p).drop count) := by
  intro fuel
  induction fuel with
  | zero =>
    intro count t _ hf
    omega
  | succ fuel ih =>
    intro count t hle hf
    unfold fetchTableGo
    by_cases hc : (g.rows.filter p).length ≤ count
    · rw [if_pos hc]
      rw [List.drop_eq_nil_of_le hc]
      rfl
    · rw [if_neg hc]
      push_neg at hc
      have hresp_len : (igdbPage g p count).length
          = min 500 ((g.rows.filter p).length - count) := by
        unfold igdbPage
        rw [List.length_take, List.length_drop]
      have hsplit : (g.rows.filter p).drop count
          = igdbPage g p count
            ++ (g.rows.filter p).drop (count + (igdbPage g p count).length) :=
        drop_take_chunk (g.rows.filter p) count 500
      rw [hsplit, foldE_append]
      show (match foldE step t (igdbPage g p count) with
        | Except.error e => Except.error e
        | Except.ok t' => fetchTableGo step g p ((g.rows.filter p).length) fuel
            (count + (igdbPage g p count).length) t') = _
      cases hf1 : foldE step t (igdbPage g p count) with
      | error e => rfl
      | ok t' =>
        exact ih (count + (igdbPage g p count).length) t' (by omega) (by omega)

theorem fetchTable_eq (step : DataTable → Row → Except PyErr DataTable)
    (g : Igdb) (p : Row → Bool) (t : DataTable) :
    fetchTable step g p ((g.rows.filter p).length) t
      = foldE step t (g.rows.filter p) := by
  unfold fetchTable
  have h := fetchTableGo_eq step g p ((g.rows.filter p).length + 1) 0 t
    (by omega) (by omega)
  simpa [List.drop_zero] using h

/-- The delta-application loop of `sync_table`: folding `add_row ∘ fproc`
over well-typed rows with pairwise-distinct ids succeeds and yields a
table where every processed row is indexed and stored, untouched ids keep
their rows and index entries, and the watermark is the running `max`. -/
theorem sync_fold (fproc : Row → Row) (tscol : String) (l : List Row) :
    ∀ (t : DataTable), WF t → t.syncable = true → t.tscol = tscol →
    ∀ b : Int, t.lastupdate = vint b →
    (∀ r ∈ l, ∃ v, alookup r "id" = some v ∧ alookup (fproc r) "id" = some v) →
    (∀ r ∈ l, ∃ a : Int, alookup r tscol = some (vint a) ∧
      alookup (fproc r) tscol = some (vint a)) →
    (idsOf l).Nodup →
    ∃ t', foldE (fun tb r => addRow tb (fproc r)) t l = .ok t' ∧
      WF t' ∧ t'.tscol = tscol ∧ t'.syncable = true ∧
      t'.lastupdate = vint (listMax b (tsListOf tscol l)) ∧
      (∀ (i : Nat) (r' : Row), t.data[i]? = some r' → alookup r' "id" ∉ idsOf l →
        t'.data[i]? = some r') ∧
      (∀ v : Val, (some v) ∉ idsOf l → dget t'.index v = dget t.index v) ∧
      (∀ r ∈ l, ∀ v : Val, alookup r "id" = some v →
        ∃ i : Nat, dget t'.index v = some i ∧ t'.data[i]? = some (fproc r)) := by
  induction l with
  | nil =>
    intro t hWF hsync htc b hlu _ _ _
    refine ⟨t, rfl, hWF, htc, hsync, ?_, ?_, ?_, ?_⟩
    · simpa [listMax, tsListOf] using hlu
    · intro i r' h _
      exact h
    · intro v _
      rfl
    · simp
  | cons r rs ih =>
    intro t hWF hsync htc b hlu hids hts hnd
    obtain ⟨v, hidr, hidf⟩ := hids r (List.mem_cons_self r rs)
    obtain ⟨a, htsr, htsf⟩ := hts r (List.mem_cons_self r rs)
    have hnd' : (idsOf (r :: rs)).Nodup := hnd
    rw [idsOf_cons, List.nodup_cons] at hnd'
    obtain ⟨hhead, htail⟩ := hnd'
    rw [hidr] at hhead
    have hstep : addRow t (fproc r) = .ok
        { upsertData t v (fproc r) with lastupdate := vint (max b a), issaved := false } :=
      addRow_typed hidf hsync (by rw [htc]; exact htsf) hlu
    have hcfg := upsertData_config t v (fproc r)
    have hWF1 : WF ({ upsertData t v (fproc r) with
        lastupdate := vint (max b a), issaved := false }) :=
      (hWF.upsert hidf).congr rfl rfl
    obtain ⟨t', hfold, hWF', htc', hsync', hlu', hframe', hidxframe', hpres'⟩ :=
      ih { upsertData t v (fproc r) with lastupdate := vint (max b a), issaved := false }
        hWF1 (by dsimp only; rw [hcfg.2.2.2.1]; exact hsync)
        (by dsimp only; rw [hcfg.2.2.1]; exact htc) (max b a) rfl
        (fun r2 h2 => hids r2 (List.mem_cons_of_mem _ h2))
        (fun r2 h2 => hts r2 (List.mem_cons_of_mem _ h2))
        htail
    refine ⟨t', ?_, hWF', htc', hsync', ?_, ?_, ?_, ?_⟩
    · show (match addRow t (fproc r) with
        | Except.error e => Except.error e
        | Except.ok t2 => foldE (fun tb r => addRow tb (fproc r)) t2 rs) = _
      rw [hstep]
      exact hfold
    · rw [hlu', tsListOf_cons htsr, listMax_cons]
    · intro i r' hr' hnin
      rw [idsOf_cons] at hnin
      have hnin' : alookup r' "id" ∉ idsOf rs := fun h => hnin (List.mem_cons_of_mem _ h)
      have hnev : alookup r' "id" ≠ some v := by
        intro hh
        exact hnin (by rw [hh, ← hidr]; exact List.mem_cons_self _ _)
      exact hframe' i r' (upsert_frame hWF i r' hr' hnev) hnin'
    · intro v' hnin
      rw [idsOf_cons] at hnin
      have hnin' : (some v') ∉ idsOf rs := fun h => hnin (List.mem_cons_of_mem _ h)
      have hnev : v' ≠ v := by
        intro hh
        exact hnin (by rw [hh, ← hidr]; exact List.mem_cons_self _ _)
      rw [hidxframe' v' hnin']
      exact upsert_index_frame hnev
    · intro r2 hmem v2 hid2
      rcases List.mem_cons.mp hmem with rfl | hmem2
      · have hv : v2 = v := by
          rw [hidr] at hid2
          exact (Option.some.inj hid2).symm
        subst hv
        obtain ⟨i0, hi0, hd0⟩ := upsert_present (r := fproc r2) hWF
        refine ⟨i0, ?_, ?_⟩
        · rw [hidxframe' v2 hhead]
          exact hi0
        · apply hframe' i0 (fproc r2) hd0
          rw [hidf]
          exact hhead
      · exact hpres' r2 hmem2 v2 hid2

/-- C6: sync delta completeness and frame — for a syncable table with
integer watermark `w`, `sync_table` counts and fetches exactly the remote
rows with `tscol > w` (the `delta`), upserts each of them (processed);
every table row whose id is not among the delta ids is unchanged; and the
final watermark is the maximum timestamp among the applied rows. -/
theorem C6_sync_delta_and_frame (g : Igdb) (t : DataTable) (fproc : Row → Row)
    (w : Int) (delta : List Row)
    (hdelta : delta = g.rows.filter (serverGtTs t.tscol t.lastupdate))
    (hWFb : wfB t = true)
    (hsync : t.syncable = true)
    (hlu : t.lastupdate = vint w)
    (hne : delta ≠ [])
    (hids : ∀ r ∈ delta, ∃ v, alookup r "id" = some v ∧ alookup (fproc r) "id" = some v)
    (hts : ∀ r ∈ delta, ∃ a : Int, alookup r t.tscol = some (vint a) ∧
      alookup (fproc r) t.tscol = some (vint a))
    (hnd : (idsOf delta).Nodup) :
    ∃ t', syncTable g t fproc = .ok t' ∧
      (∀ r ∈ delta, ∀ v : Val, alookup r "id" = some v →
        ∃ i : Nat, dget t'.index v = some i ∧ t'.data[i]? = some (fproc r)) ∧
      (∀ (i : Nat) (r' : Row), t.data[i]? = some r' →
        alookup r' "id" ∉ idsOf delta → t'.data[i]? = some r') ∧
      t'.lastupdate = vint (listMax w (tsListOf t.tscol delta)) ∧
      listMax w (tsListOf t.tscol delta) ∈ tsListOf t.tscol delta ∧
      (∀ a ∈ tsListOf t.tscol delta, a ≤ listMax w (tsListOf t.tscol delta)) := by
  have hWF := wfB_sound hWFb
  obtain ⟨t', hfold, _, _, _, hlu', hframe', _, hpres'⟩ :=
    sync_fold fproc t.tscol delta t hWF hsync rfl w hlu hids hts hnd
  have htot : igdbCount g (serverGtTs t.tscol t.lastupdate) ≠ 0 := by
    unfold igdbCount
    rw [← hdelta]
    simpa [List.length_eq_zero] using hne
  have hrun : syncTable g t fproc = .ok t' := by
    unfold syncTable
    rw [if_neg htot]
    have hcount : igdbCount g (serverGtTs t.tscol t.lastupdate)
        = (g.rows.filter (serverGtTs t.tscol t.lastupdate)).length := rfl
    rw [hcount, fetchTable_eq, ← hdelta]
    exact hfold
  have htsne : tsListOf t.tscol delta ≠ [] := by
    cases hca : delta with
    | nil => exact absurd hca hne
    | cons r rest =>
      obtain ⟨a, htsr, _⟩ := hts r (by rw [hca]; exact List.mem_cons_self _ _)
      rw [tsListOf_cons htsr]
      simp
  have hgt : ∀ a ∈ tsListOf t.tscol delta, w < a := by
    intro a ha
    unfold tsListOf at ha
    obtain ⟨r, hrmem, hfr⟩ := List.mem_filterMap.mp ha
    cases hv : alookup r t.tscol with
    | none => rw [hv] at hfr; simp at hfr
    | some x =>
      cases x with
      | vint n =>
        rw [hv] at hfr
        dsimp only at hfr
        injection hfr with hna
        subst hna
        have hp : serverGtTs t.tscol t.lastupdate r = true :=
          (List.mem_filter.mp (by rw [← hdelta]; exact hrmem)).2
        unfold serverGtTs at hp
        rw [hv, hlu] at hp
        simpa using hp
      | vnone => rw [hv] at hfr; simp at hfr
      | vstr s => rw [hv] at hfr; simp at hfr
      | vbool b2 => rw [hv] at hfr; simp at hfr
      | vlist xs => rw [hv] at hfr; simp at hfr
      | vdict fs => rw [hv] at hfr; simp at hfr
  obtain ⟨hmem, hbound⟩ := listMax_spec htsne hgt
  exact ⟨t', hrun, hpres', hframe', hlu', hmem, hbound⟩

theorem C6_witness :
    ([c6R7, c6R9, c6R12] : List Row)
        = c6G.rows.filter (serverGtTs c6T.tscol c6T.lastupdate) ∧
    wfB c6T = true ∧ c6T.syncable = true ∧ c6T.lastupdate = vint 100 ∧
    ([c6R7, c6R9, c6R12] : List Row) ≠ [] ∧
    (idsOf [c6R7, c6R9, c6R12]).Nodup ∧
    (∃ t', syncTable c6G c6T id = .ok t' ∧
      (∀ r ∈ [c6R7, c6R9, c6R12], ∀ v : Val, alookup r "id" = some v →
        ∃ i : Nat, dget t'.index v = some i ∧ t'.data[i]? = some (id r)) ∧
      (∀ (i : Nat) (r' : Row), c6T.data[i]? = some r' →
        alookup r' "id" ∉ idsOf [c6R7, c6R9, c6R12] → t'.data[i]? = some r') ∧
      t'.lastupdate = vint (listMax 100 (tsListOf c6T.tscol [c6R7, c6R9, c6R12])) ∧
      listMax 100 (tsListOf c6T.tscol [c6R7, c6R9, c6R12])
        ∈ tsListOf c6T.tscol [c6R7, c6R9, c6R12] ∧
      (∀ a ∈ tsListOf c6T.tscol [c6R7, c6R9, c6R12],
        a ≤ listMax 100 (tsListOf c6T.tscol [c6R7, c6R9, c6R12]))) :=
  ⟨by decide, by decide, by decide, by decide, by decide, by decide,
    C6_sync_delta_and_frame c6G c6T id 100 [c6R7, c6R9, c6R12]
      (by decide) (by decide) (by decide) (by decide) (by decide)
      (by intro r hr; fin_cases hr <;> exact ⟨_, rfl, rfl⟩)
      (by intro r hr; fin_cases hr <;> exact ⟨_, rfl, rfl⟩)
      (by decide)⟩
